import Mathlib

/-!
# RapidTorrent: session state synchronisation and durable persistence

A shallow embedding of `src/model/torrent.go` and `src/model/database.go`, and the
properties of the sampling tick, of the retrying writer and of the session life cycle
proved about it.

* `float64` values are the rationals they denote; every arithmetic operation rounds its
  exact result to the nearest 53-bit binary float, ties to even (`F64.round`).  The exponent
  is unbounded: on the values the program computes (quotients of 64-bit integers, durations)
  no overflow or underflow occurs, and no division has a zero divisor.
* `int64` arithmetic wraps (`wrapInt64`).
* `time.Time` is a monotonic reading in nanoseconds.
* The registry `map[string]*TorrentItem` is an association list; one tick visits the
  entries in list order, so a statement for all lists covers every iteration order.
* The SQLite store is the pair of tables `torrents` and `torrent_history` with their
  `AUTOINCREMENT` counters (table `config` plays no part in the functions embedded here).
  What the store does on each call of `ExecuteSaveTorrent` (which statement fails, with
  which message, and the value of `CURRENT_TIMESTAMP`) is given by an environment `Env`,
  indexed by the number of calls made so far.  A transaction works on its own copy of the
  tables, which replaces the committed ones when `Commit` succeeds and is dropped otherwise.
* The transfer engine is sampled through `Engine : Torrent → Sample`.
* Goroutines run one at a time: the mutexes `m.Mu` and `dbMutex` are not represented, and
  the watcher started by `AddTorrent` is a value whose two branches are functions.
-/

namespace RapidTorrent

/-! ## float64 arithmetic -/

/-- Nearest integer, ties to the even neighbour. -/
def roundEven (x : ℚ) : ℤ :=
  let f := ⌊x⌋
  let r := x - f
  if r < 1 / 2 then f
  else if 1 / 2 < r then f + 1
  else if f % 2 = 0 then f else f + 1

/-- The number of halvings that bring `n` below 2, at most `fuel` of them. -/
def log2Fuel : Nat → Nat → Nat
  | 0, _ => 0
  | fuel + 1, n => if n < 2 then 0 else log2Fuel fuel (n / 2) + 1

/-- The integer part of the binary logarithm of `n ≥ 1`. -/
def ilog2 (n : Nat) : Nat := log2Fuel n n

/-- Binary exponent of `q ≠ 0`: the `e` with `2 ^ e ≤ |q| < 2 ^ (e + 1)`. -/
def F64.exponent (q : ℚ) : ℤ :=
  let e0 : ℤ := (ilog2 q.num.natAbs : ℤ) - (ilog2 q.den : ℤ)
  if (2 : ℚ) ^ e0 ≤ |q| then e0 else e0 - 1

/-- Unit in the last place of the binade of `q ≠ 0`, for a 53-bit significand. -/
def F64.ulp (q : ℚ) : ℚ := (2 : ℚ) ^ (F64.exponent q - 52)

/-- Round-to-nearest-even onto the binary64 grid. -/
def F64.round (q : ℚ) : ℚ :=
  if q = 0 then 0 else (roundEven (q / F64.ulp q) : ℚ) * F64.ulp q

/-- Conversion `float64(i)` of an integer. -/
def F64.ofInt (i : Int) : ℚ := F64.round (i : ℚ)

/-- Binary64 `x + y`. -/
def F64.add (x y : ℚ) : ℚ := F64.round (x + y)

/-- Binary64 `x * y`. -/
def F64.mul (x y : ℚ) : ℚ := F64.round (x * y)

/-- Binary64 `x / y` (only used with `y ≠ 0`). -/
def F64.div (x y : ℚ) : ℚ := F64.round (x / y)

/-! ## int64 and time -/

/-- Two's complement wrap-around of a 64-bit signed result. -/
def wrapInt64 (x : Int) : Int := (x + 2 ^ 63) % 2 ^ 64 - 2 ^ 63

/-- Nanoseconds in `time.Millisecond`. -/
def Millisecond : Int := 1000000

/-- Nanoseconds in `time.Second`. -/
def Second : Int := 1000000000

/-- Saturating `t.Sub(u)` of two monotonic readings, as a `time.Duration`. -/
def Time.Sub (t u : Int) : Int :=
  let d := t - u
  if d < -(2 ^ 63) then -(2 ^ 63) else if 2 ^ 63 - 1 < d then 2 ^ 63 - 1 else d

/-- The method `Duration.Seconds`: `float64(d / Second) + float64(d % Second) / 1e9`. -/
def Duration.Seconds (d : Int) : ℚ :=
  F64.add (F64.ofInt (Int.tdiv d Second)) (F64.div (F64.ofInt (Int.tmod d Second)) 1000000000)

/-! ## strings -/

/-- Whether `p` is an initial segment of `s`. -/
def startsWith : List Char → List Char → Bool
  | _, [] => true
  | [], _ :: _ => false
  | c :: s, d :: p => c == d && startsWith s p

/-- Substring search on character lists. -/
def containsChars : List Char → List Char → Bool
  | [], sub => startsWith [] sub
  | c :: s, sub => startsWith (c :: s) sub || containsChars s sub

/-- The function `strings.Contains`. -/
def strContains (s sub : String) : Bool := containsChars s.toList sub.toList

/-! ## data model (`model.go`) -/

/-- Handle of a torrent inside the engine (`*torrent.Torrent`): what `InfoHash().String()`
and `Name()` return. -/
structure Torrent where
  InfoHash : String
  Name : String
  deriving DecidableEq, Repr

/-- What one tick reads from a handle: `Stats()`, `BytesCompleted()`, `Length()`,
`Complete().Bool()`. -/
structure Sample where
  TotalPeers : Int
  ActivePeers : Int
  BytesWritten : Int
  BytesCompleted : Int
  Length : Int
  Complete : Bool
  deriving DecidableEq, Repr

/-- The engine as seen by a tick. -/
abbrev Engine := Torrent → Sample

/-- Record `TorrentItem`. -/
structure TorrentItem where
  ID : Int
  Name : String
  Progress : ℚ
  Speed : ℚ
  State : String
  Torrent : Option Torrent
  MagnetURI : String
  LastUpdate : Int
  LastBytes : Int
  TotalPeers : Int
  ActivePeers : Int
  UploadSpeed : ℚ
  Downloaded : Int
  Uploaded : Int
  deriving DecidableEq, Repr

/-- Row of table `torrents`. -/
structure TorrentRow where
  id : Nat
  info_hash : String
  magnet_uri : String
  name : String
  progress : ℚ
  state : String
  created_at : Nat
  updated_at : Nat
  deriving DecidableEq, Repr

/-- Row of table `torrent_history`. -/
structure HistoryRow where
  id : Nat
  torrent_id : Nat
  status : String
  progress : ℚ
  timestamp : Nat
  deriving DecidableEq, Repr

/-- The two tables and their `AUTOINCREMENT` counters (the last row id drawn from each). -/
structure DB where
  torrents : List TorrentRow
  torrent_history : List HistoryRow
  torrents_seq : Nat
  history_seq : Nat
  deriving DecidableEq, Repr

/-- Statement of `ExecuteSaveTorrent` at which the store reports an error. -/
inductive Stage where
  | begin
  | upsert
  | history
  | commit
  deriving DecidableEq, Repr

/-- Behaviour of the store and its clock on the `k`-th call of `ExecuteSaveTorrent`. -/
structure Env where
  fault : Nat → Option (Stage × String)
  clock : Nat → Nat

/-- The store with its observable trace: committed tables, number of calls of
`ExecuteSaveTorrent` so far, durations passed to `time.Sleep`, and the values returned by
`SaveTorrentState`. -/
structure Store where
  db : DB
  calls : Nat
  slept : List Int
  results : List (Option String)
  deriving DecidableEq, Repr

/-- The fields of `Model` that the persistence layer and the sampling tick touch;
`started` lists the info hashes on whose handle `DownloadAll()` was called. -/
structure Model where
  Torrents : List (String × TorrentItem)
  DB : Store
  Err : Option String
  started : List String
  deriving DecidableEq, Repr

/-- The engine calls of `m.Client` used when a session is added: `AddMagnet`, and
`AddTorrentFromFile` together with the result of `t.Metainfo().MagnetV2()` as a string. -/
structure Client where
  AddMagnet : String → Except String Torrent
  AddTorrentFromFile : String → Except String (Torrent × Except String String)

/-! ## registry operations on `m.Torrents` -/

/-- Lookup `m.Torrents[k]`. -/
def Registry.get (r : List (String × TorrentItem)) (k : String) : Option TorrentItem :=
  (r.find? (fun e => e.1 == k)).map Prod.snd

/-- Assignment `m.Torrents[k] = v`. -/
def Registry.set : List (String × TorrentItem) → String → TorrentItem →
    List (String × TorrentItem)
  | [], k, v => [(k, v)]
  | e :: r, k, v => if e.1 = k then (k, v) :: r else e :: Registry.set r k v

/-- Removal `delete(m.Torrents, k)`. -/
def Registry.delete (r : List (String × TorrentItem)) (k : String) :
    List (String × TorrentItem) :=
  r.filter (fun e => e.1 != k)

/-! ## the store (`database.go`) -/

/-- The statement `INSERT INTO torrents ... ON CONFLICT(info_hash) DO UPDATE SET progress,
state, updated_at`.  The statement draws a row id from the `AUTOINCREMENT` counter before
the conflict is found, so the counter advances in both branches. -/
def upsertTorrent (infoHash : String) (item : TorrentItem) (ts : Nat) (db : DB) : DB :=
  if db.torrents.any (fun r => r.info_hash == infoHash) then
    { db with
      torrents := db.torrents.map (fun r =>
        if r.info_hash = infoHash then
          { r with progress := item.Progress, state := item.State, updated_at := ts }
        else r)
      torrents_seq := db.torrents_seq + 1 }
  else
    { db with
      torrents := db.torrents ++
        [{ id := db.torrents_seq + 1, info_hash := infoHash, magnet_uri := item.MagnetURI,
           name := item.Name, progress := item.Progress, state := item.State,
           created_at := ts, updated_at := ts }]
      torrents_seq := db.torrents_seq + 1 }

/-- Row ids handed out to `n` consecutive inserts after counter value `seq`. -/
def freshIds (seq n : Nat) : List Nat := (List.range n).map (fun i => seq + 1 + i)

/-- The statement `INSERT INTO torrent_history (torrent_id, status, progress)
SELECT id, ?, ? FROM torrents WHERE info_hash = ?`. -/
def insertHistory (infoHash : String) (item : TorrentItem) (ts : Nat) (db : DB) : DB :=
  let sel := db.torrents.filter (fun r => r.info_hash == infoHash)
  let rows := (sel.zip (freshIds db.history_seq sel.length)).map (fun p =>
    ({ id := p.2, torrent_id := p.1.id, status := item.State, progress := item.Progress,
       timestamp := ts } : HistoryRow))
  { db with
    torrent_history := db.torrent_history ++ rows
    history_seq := db.history_seq + sel.length }

/-- An open transaction: the tables as the transaction sees them. -/
structure Tx where
  pending : DB
  deriving DecidableEq, Repr

/-- The call `m.DB.Begin()`. -/
def Store.Begin (f : Option (Stage × String)) (s : Store) : Except String Tx :=
  match f with
  | some (Stage.begin, msg) => Except.error msg
  | _ => Except.ok { pending := s.db }

/-- The call `tx.Exec(...)` of the statement `stmt`, which the store fails at stage `st`
when told so. -/
def Tx.Exec (f : Option (Stage × String)) (st : Stage) (stmt : DB → DB) (tx : Tx) :
    Except String Tx :=
  match f with
  | some (st', msg) =>
    if st' = st then Except.error msg else Except.ok { pending := stmt tx.pending }
  | none => Except.ok { pending := stmt tx.pending }

/-- The call `tx.Commit()`: the pending tables become the committed ones, unless the store
reports an error, in which case the committed tables stay as they were. -/
def Tx.Commit (f : Option (Stage × String)) (tx : Tx) (s : Store) : Except String Store :=
  match f with
  | some (Stage.commit, msg) => Except.error msg
  | _ => Except.ok { s with db := tx.pending }

/-- The deferred `tx.Rollback()` of a transaction that was not committed: the pending
tables are dropped. -/
def Tx.Rollback (_tx : Tx) (s : Store) : Store := s

/-- Function `ExecuteSaveTorrent`. -/
def ExecuteSaveTorrent (env : Env) (infoHash : String) (item : TorrentItem) (s : Store) :
    Option String × Store :=
  let f := env.fault s.calls
  let ts := env.clock s.calls
  let s := { s with calls := s.calls + 1 }
  match Store.Begin f s with
  | Except.error err => (some ("failed to begin transaction: " ++ err), s)
  | Except.ok tx =>
    match tx.Exec f Stage.upsert (upsertTorrent infoHash item ts) with
    | Except.error err => (some ("failed to save torrent state: " ++ err), tx.Rollback s)
    | Except.ok tx1 =>
      match tx1.Exec f Stage.history (insertHistory infoHash item ts) with
      | Except.error err => (some err, tx1.Rollback s)
      | Except.ok tx2 =>
        match tx2.Commit f s with
        | Except.error err => (some err, tx2.Rollback s)
        | Except.ok s1 => (none, s1)

/-- The error `ExecuteSaveTorrent` returns when the store fails at stage `st` with
message `msg`: the first two stages wrap the message with `fmt.Errorf`. -/
def ExecuteSaveTorrent.error (st : Stage) (msg : String) : String :=
  match st with
  | Stage.begin => "failed to begin transaction: " ++ msg
  | Stage.upsert => "failed to save torrent state: " ++ msg
  | Stage.history => msg
  | Stage.commit => msg

/-- The constant `maxRetries` of `SaveTorrentState`. -/
def maxRetries : Nat := 3

/-- The call `time.Sleep(d)`. -/
def Store.Sleep (d : Int) (s : Store) : Store := { s with slept := s.slept ++ [d] }

/-- The retry loop of `SaveTorrentState`, with `remaining = maxRetries - attempt`
iterations left. -/
def SaveTorrentState.loop (env : Env) (infoHash : String) (item : TorrentItem) :
    Nat → Nat → Store → Option String × Store
  | 0, _, s => (some ("database is locked after " ++ toString maxRetries ++ " retries"), s)
  | remaining + 1, attempt, s =>
    match ExecuteSaveTorrent env infoHash item s with
    | (none, s1) => (none, s1)
    | (some err, s1) =>
      if strContains err "database is locked" then
        SaveTorrentState.loop env infoHash item remaining (attempt + 1)
          (s1.Sleep (Millisecond * 250 * 2 ^ attempt))
      else (some err, s1)

/-- Function `SaveTorrentState`; the returned value is also appended to the trace. -/
def SaveTorrentState (env : Env) (infoHash : String) (item : TorrentItem) (s : Store) :
    Option String × Store :=
  let r := SaveTorrentState.loop env infoHash item maxRetries 0 s
  (r.1, { r.2 with results := r.2.results ++ [r.1] })

/-! ## sessions (`torrent.go`) -/

/-- The state classification of one tick (`newState`, lines 203-212 of `torrent.go`). -/
def nextState (prior : String) (complete : Bool) (activePeers totalPeers : Int)
    (bytesCompleted totalLength : Int) : String :=
  if complete then "completed"
  else if activePeers > 0 ∧ bytesCompleted < totalLength then "downloading"
  else if totalPeers = 0 then "searching"
  else if activePeers = 0 then "connecting"
  else prior

/-- What the loop of `UpdateTorrents` carries besides the record it is visiting. -/
structure TickState where
  DB : Store
  Err : Option String
  needsUpdate : Bool
  deriving DecidableEq, Repr

/-- The statement `if err := m.SaveTorrentState(infoHash, item); err != nil { m.Err = err }`. -/
def TickState.save (env : Env) (infoHash : String) (item : TorrentItem) (st : TickState) :
    TickState :=
  match SaveTorrentState env infoHash item st.DB with
  | (none, s) => { st with DB := s }
  | (some err, s) => { st with DB := s, Err := some err }

/-- Lines 179-182 of the loop body: the sampled metrics are stored on the record. -/
def UpdateTorrents.metrics (stats : Sample) (item : TorrentItem) : TorrentItem :=
  { item with
    TotalPeers := stats.TotalPeers, ActivePeers := stats.ActivePeers,
    Downloaded := stats.BytesCompleted, Uploaded := stats.BytesWritten }

/-- Lines 185-193 of the loop body (inside `if totalLength > 0`): the progress is recomputed
and, when it differs from the stored one, stored and saved. -/
def UpdateTorrents.progress (env : Env) (infoHash : String) (bytesCompleted totalLength : Int)
    (item : TorrentItem) (st : TickState) : TorrentItem × TickState :=
  let newProgress := F64.mul (F64.div (F64.ofInt bytesCompleted) (F64.ofInt totalLength)) 100
  if newProgress ≠ item.Progress then
    let item1 := { item with Progress := newProgress }
    (item1, ({ st with needsUpdate := true } : TickState).save env infoHash item1)
  else (item, st)

/-- Lines 195-200 of the loop body (inside `if totalLength > 0`): the download speed. -/
def UpdateTorrents.speed (now : Int) (bytesCompleted : Int) (item : TorrentItem)
    (st : TickState) : TorrentItem × TickState :=
  let timeDiff := Duration.Seconds (Time.Sub now item.LastUpdate)
  let bytesDiff := wrapInt64 (bytesCompleted - item.LastBytes)
  if 0 < timeDiff ∧ bytesDiff > 1024 then
    ({ item with Speed := F64.div (F64.div (F64.div (F64.ofInt bytesDiff) timeDiff) 1024) 1024 },
      { st with needsUpdate := true })
  else (item, st)

/-- Lines 203-221 of the loop body: the state is classified and, when it differs from the
stored one, stored and saved. -/
def UpdateTorrents.state (env : Env) (infoHash : String) (stats : Sample)
    (item : TorrentItem) (st : TickState) : TorrentItem × TickState :=
  let newState := nextState item.State stats.Complete stats.ActivePeers stats.TotalPeers
    stats.BytesCompleted stats.Length
  if newState ≠ item.State then
    let item1 := { item with State := newState }
    (item1, ({ st with needsUpdate := true } : TickState).save env infoHash item1)
  else (item, st)

/-- Lines 223-229 of the loop body: the sample is remembered, then the upload speed is
computed from the time elapsed since the `LastUpdate` just written. -/
def UpdateTorrents.upload (now : Int) (stats : Sample) (item : TorrentItem) : TorrentItem :=
  let item1 := { item with LastBytes := stats.BytesCompleted, LastUpdate := now }
  let uploadDiff := wrapInt64 (stats.BytesWritten - item1.LastBytes)
  let timeDiff := Duration.Seconds (Time.Sub now item1.LastUpdate)
  if 0 < timeDiff then
    { item1 with
      UploadSpeed := F64.div (F64.div (F64.div (F64.ofInt uploadDiff) timeDiff) 1024) 1024 }
  else item1

/-- The body of the loop of `UpdateTorrents` for one registry entry. -/
def UpdateTorrents.body (env : Env) (now : Int) (engine : Engine) (infoHash : String)
    (item : TorrentItem) (st : TickState) : TorrentItem × TickState :=
  match item.Torrent with
  | none => (item, st)
  | some t =>
    let stats := engine t
    let bytesCompleted := stats.BytesCompleted
    let totalLength := stats.Length
    let item0 := UpdateTorrents.metrics stats item
    let r1 : TorrentItem × TickState :=
      if totalLength > 0 then
        let r := UpdateTorrents.progress env infoHash bytesCompleted totalLength item0 st
        UpdateTorrents.speed now bytesCompleted r.1 r.2
      else (item0, st)
    let r2 := UpdateTorrents.state env infoHash stats r1.1 r1.2
    (UpdateTorrents.upload now stats r2.1, r2.2)

/-- The loop `for infoHash, item := range m.Torrents`. -/
def UpdateTorrents.range (env : Env) (now : Int) (engine : Engine) :
    List (String × TorrentItem) → TickState → List (String × TorrentItem) × TickState
  | [], st => ([], st)
  | (infoHash, item) :: rest, st =>
    let r := UpdateTorrents.body env now engine infoHash item st
    let rs := UpdateTorrents.range env now engine rest r.2
    ((infoHash, r.1) :: rs.1, rs.2)

/-- Function `UpdateTorrents`, with `now` the value of `time.Now()`; the Boolean tells
whether a `tickMsg` is returned rather than `nil`. -/
def UpdateTorrents (env : Env) (now : Int) (engine : Engine) (m : Model) : Model × Bool :=
  let r := UpdateTorrents.range env now engine m.Torrents
    { DB := m.DB, Err := m.Err, needsUpdate := false }
  ({ m with Torrents := r.1, DB := r.2.DB, Err := r.2.Err }, r.2.needsUpdate)

/-- A goroutine started by `AddTorrent` or `AddTorrentFromFile`, waiting for `t.GotInfo()`
or for the 30 second timeout. -/
structure Watcher where
  t : Torrent
  infoHash : String
  deriving DecidableEq, Repr

/-- The branch `case <-t.GotInfo()` of a watcher. -/
def Watcher.onGotInfo (env : Env) (w : Watcher) (m : Model) : Model :=
  match Registry.get m.Torrents w.infoHash with
  | some item =>
    let item1 := { item with Name := w.t.Name, State := "downloading" }
    let r := SaveTorrentState env w.infoHash item1 m.DB
    { m with
      Torrents := Registry.set m.Torrents w.infoHash item1
      DB := r.2
      started := m.started ++ [w.infoHash] }
  | none => m

/-- The branch `case <-time.After(30 * time.Second)` of a watcher. -/
def Watcher.onTimeout (w : Watcher) (m : Model) : Model :=
  { m with
    Torrents := Registry.delete m.Torrents w.infoHash
    Err := some "timeout waiting for torrent info" }

/-- Function `AddTorrent`, with `now` the value of `time.Now()`; returns the watcher
goroutine it starts, if any. -/
def AddTorrent (env : Env) (client : Client) (now : Int) (magnetURI : String) (m : Model) :
    Model × Option Watcher :=
  match client.AddMagnet magnetURI with
  | Except.error err => ({ m with Err := some ("failed to add magnet: " ++ err) }, none)
  | Except.ok t =>
    let infoHash := t.InfoHash
    let item : TorrentItem :=
      { ID := 0, Name := "Fetching metadata...", Progress := 0, Speed := 0,
        State := "fetching_metadata", Torrent := some t, MagnetURI := magnetURI,
        LastUpdate := now, LastBytes := 0, TotalPeers := 0, ActivePeers := 0,
        UploadSpeed := 0, Downloaded := 0, Uploaded := 0 }
    let m1 := { m with Torrents := Registry.set m.Torrents infoHash item }
    match SaveTorrentState env infoHash item m1.DB with
    | (some err, s) => ({ m1 with DB := s, Err := some err }, none)
    | (none, s) => ({ m1 with DB := s }, some { t := t, infoHash := infoHash })

/-- The function `filepath.Base` for slash-separated paths. -/
def filepathBase (path : String) : String :=
  if path = "" then "."
  else
    let stripped := (path.toList.reverse.dropWhile (fun c => c == '/'))
    let last := (stripped.takeWhile (fun c => c != '/')).reverse
    if last = [] then "/" else String.mk last

/-- Function `AddTorrentFromFile`, with `now` the value of `time.Now()`; returns the
watcher goroutine it starts, if any. -/
def AddTorrentFromFile (env : Env) (client : Client) (now : Int) (torrentPath : String)
    (m : Model) : Model × Option Watcher :=
  match client.AddTorrentFromFile torrentPath with
  | Except.error err => ({ m with Err := some ("failed to add torrent: " ++ err) }, none)
  | Except.ok (_, Except.error err) =>
    ({ m with Err := some ("failed to generate magnet URI: " ++ err) }, none)
  | Except.ok (t, Except.ok magnetURI) =>
    let infoHash := t.InfoHash
    let item : TorrentItem :=
      { ID := 0, Name := filepathBase torrentPath, Progress := 0, Speed := 0,
        State := "connecting", Torrent := some t, MagnetURI := magnetURI,
        LastUpdate := now, LastBytes := 0, TotalPeers := 0, ActivePeers := 0,
        UploadSpeed := 0, Downloaded := 0, Uploaded := 0 }
    let m1 := { m with Torrents := Registry.set m.Torrents infoHash item }
    match SaveTorrentState env infoHash item m1.DB with
    | (some err, s) => ({ m1 with DB := s, Err := some err }, none)
    | (none, s) => ({ m1 with DB := s }, some { t := t, infoHash := infoHash })

/-! ## vocabulary of the statements -/

/-- The store accepts every write: no call of `ExecuteSaveTorrent` meets an error. -/
def Env.accepts (env : Env) : Prop := ∀ k, env.fault k = none

/-- The rows of `torrents` for an info hash
(`SELECT * FROM torrents WHERE info_hash = k`). -/
def DB.rowsOf (db : DB) (k : String) : List TorrentRow :=
  db.torrents.filter (fun r => r.info_hash == k)

/-- The rows of `torrent_history` of a session, oldest first (`SELECT h.* FROM
torrent_history h JOIN torrents t ON h.torrent_id = t.id WHERE t.info_hash = k`). -/
def DB.historyOf (db : DB) (k : String) : List HistoryRow :=
  db.torrent_history.filter (fun r =>
    db.torrents.any (fun t => t.info_hash == k && t.id == r.torrent_id))

/-- What the schema guarantees of the tables: `info_hash` is `UNIQUE`, `id` is a primary
key handed out by `AUTOINCREMENT`, and history rows refer to ids that were handed out. -/
structure DB.WF (db : DB) : Prop where
  hash_unique : (db.torrents.map (fun r => r.info_hash)).Nodup
  id_unique : (db.torrents.map (fun r => r.id)).Nodup
  id_le : ∀ t ∈ db.torrents, t.id ≤ db.torrents_seq
  ref_le : ∀ r ∈ db.torrent_history, r.torrent_id ≤ db.torrents_seq

/-- The transition rule of the specification (section 4.2), in its precedence order. -/
def specTransition (prior : String) (s : Sample) : String :=
  if s.Complete = true then "completed"
  else if s.ActivePeers > 0 ∧ s.BytesCompleted < s.Length then "downloading"
  else if s.TotalPeers = 0 then "searching"
  else if s.ActivePeers = 0 then "connecting"
  else prior

/-- Successive sampling ticks, each with its reading of the clock and of the engine. -/
def runTicks (env : Env) : List (Int × Engine) → Model → Model
  | [], m => m
  | tk :: rest, m => runTicks env rest (UpdateTorrents env tk.1 tk.2 m).1

/-- A sample that leaves a completed record completed: the engine reports completion, or
none of the rules for `downloading`, `searching` and `connecting` applies. -/
def Sample.keepsCompleted (s : Sample) : Prop :=
  s.Complete = true ∨
    (¬ (s.ActivePeers > 0 ∧ s.BytesCompleted < s.Length) ∧ s.TotalPeers ≠ 0 ∧
      s.ActivePeers ≠ 0)

/-- The tables after the two statements of a committed `ExecuteSaveTorrent`. -/
def savedDB (k : String) (item : TorrentItem) (ts : Nat) (db : DB) : DB :=
  insertHistory k item ts (upsertTorrent k item ts db)

/-- The store reports contention on its `k`-th call of `ExecuteSaveTorrent`: the error
that call returns contains "database is locked". -/
def Env.lockedAt (env : Env) (k : Nat) : Prop :=
  ∃ st msg, env.fault k = some (st, msg) ∧
    strContains (ExecuteSaveTorrent.error st msg) "database is locked" = true

/-- The store after `k` attempts of `SaveTorrentState` that met contention, the first of
them being attempt number `a`: `k` more calls, and the backoff delays slept after them. -/
def Store.afterLocked (s : Store) (a k : Nat) : Store :=
  { s with
    calls := s.calls + k
    slept := s.slept ++ (List.range k).map (fun j => Millisecond * 250 * 2 ^ (a + j)) }

/-- The record one tick leaves in place of `item`: the loop body, run against a store
that accepts every write (the record it leaves is the same for every other store, see
`body_fst_indep`). -/
def UpdateTorrents.record (now : Int) (engine : Engine) (item : TorrentItem) : TorrentItem :=
  (UpdateTorrents.body { fault := fun _ => none, clock := fun _ => 0 } now engine "" item
    { DB := { db := { torrents := [], torrent_history := [], torrents_seq := 0,
                      history_seq := 0 },
              calls := 0, slept := [], results := [] },
      Err := none, needsUpdate := false }).1

/-- The value of the slot `m.Err` after the saves whose results are `log`, in that order,
when it held `err` before them: every failed save overwrites it. -/
def lastError (log : List (Option String)) (err : Option String) : Option String :=
  log.foldl (fun acc r => match r with
    | some e => some e
    | none => acc) err

/-- The `(status, progress)` pairs that one tick appends to the history of a session whose
record goes from `item` to `item1`: one row when the progress changes, carrying the state
from before the tick, then one row when the state changes. -/
def tickRows (item item1 : TorrentItem) : List (String × ℚ) :=
  (if item1.Progress ≠ item.Progress then [(item.State, item1.Progress)] else []) ++
    (if item1.State ≠ item.State then [(item1.State, item1.Progress)] else [])

/-- What a stretch of the tick does to the trace of saves and to the slot `Err`. -/
def TickState.grows (st st' : TickState) : Prop :=
  ∃ new, st'.DB.results = st.DB.results ++ new ∧ st'.Err = lastError new st.Err

/-- The history of session `h` grows by rows carrying `rows` between the tables `db` and
`db1`, which stay well formed, while the history of every other session is untouched. -/
def HistStep (h : String) (rows : List (String × ℚ)) (db db1 : DB) : Prop :=
  db1.WF ∧ (∀ k, k ≠ h → db1.historyOf k = db.historyOf k) ∧
    ∃ new, db1.historyOf h = db.historyOf h ++ new ∧
      new.map (fun r => (r.status, r.progress)) = rows

/-- The value `timeDiff` of the download sample of a tick:
`now.Sub(item.LastUpdate).Seconds()`. -/
def UpdateTorrents.elapsedSeconds (now : Int) (item : TorrentItem) : ℚ :=
  Duration.Seconds (Time.Sub now item.LastUpdate)

/-- The value `bytesDiff` of the download sample of a tick: the `int64` difference
`bytesCompleted - item.LastBytes`. -/
def UpdateTorrents.bytesDiff (stats : Sample) (item : TorrentItem) : Int :=
  wrapInt64 (stats.BytesCompleted - item.LastBytes)

/-- The record that `AddTorrent` puts into the registry for the engine handle `t`. -/
def AddTorrent.record (now : Int) (magnetURI : String) (t : Torrent) : TorrentItem :=
  { ID := 0, Name := "Fetching metadata...", Progress := 0, Speed := 0,
    State := "fetching_metadata", Torrent := some t, MagnetURI := magnetURI,
    LastUpdate := now, LastBytes := 0, TotalPeers := 0, ActivePeers := 0,
    UploadSpeed := 0, Downloaded := 0, Uploaded := 0 }

/-- The record that `AddTorrentFromFile` puts into the registry for the engine handle `t`,
whose metainfo gives the locator `magnetURI`. -/
def AddTorrentFromFile.record (now : Int) (torrentPath magnetURI : String) (t : Torrent) :
    TorrentItem :=
  { ID := 0, Name := filepathBase torrentPath, Progress := 0, Speed := 0,
    State := "connecting", Torrent := some t, MagnetURI := magnetURI,
    LastUpdate := now, LastBytes := 0, TotalPeers := 0, ActivePeers := 0,
    UploadSpeed := 0, Downloaded := 0, Uploaded := 0 }

/-! ## example data -/

/-- A store that accepts every write. -/
def Env.healthy : Env := { fault := fun _ => none, clock := fun k => 1000 + k }

/-- A store that is locked on its first two calls. -/
def Env.lockedTwice : Env :=
  { fault := fun k => if k < 2 then some (Stage.upsert, "database is locked") else none
    clock := fun k => 1000 + k }

/-- A store that is locked on every call. -/
def Env.alwaysLocked : Env :=
  { fault := fun _ => some (Stage.commit, "database is locked (5) (SQLITE_BUSY)")
    clock := fun k => 1000 + k }

/-- A store that is locked on its first call and out of space afterwards. -/
def Env.diskFull : Env :=
  { fault := fun k =>
      if k < 1 then some (Stage.begin, "database is locked")
      else some (Stage.history, "database or disk is full")
    clock := fun k => 1000 + k }

/-- The freshly created tables. -/
def DB.empty : DB :=
  { torrents := [], torrent_history := [], torrents_seq := 0, history_seq := 0 }

/-- The store at start-up. -/
def Store.empty : Store := { db := DB.empty, calls := 0, slept := [], results := [] }

/-- An engine handle. -/
def Torrent.example : Torrent := { InfoHash := "c0ffee", Name := "debian.iso" }

/-- The record `AddTorrent` creates for `Torrent.example` at time 0. -/
def TorrentItem.example : TorrentItem :=
  { ID := 0, Name := "Fetching metadata...", Progress := 0, Speed := 0,
    State := "fetching_metadata", Torrent := some Torrent.example,
    MagnetURI := "magnet:?xt=urn:btih:c0ffee", LastUpdate := 0, LastBytes := 0,
    TotalPeers := 0, ActivePeers := 0, UploadSpeed := 0, Downloaded := 0, Uploaded := 0 }

/-- A record whose download is complete. -/
def TorrentItem.done : TorrentItem :=
  { TorrentItem.example with Name := "debian.iso", Progress := 100, State := "completed" }

/-- A model tracking one completed session. -/
def Model.done : Model :=
  { Torrents := [("c0ffee", TorrentItem.done)], DB := Store.empty, Err := none, started := [] }

/-- An engine that has lost all peers and does not report completion. -/
def Engine.noPeers : Engine := fun _ =>
  { TotalPeers := 0, ActivePeers := 0, BytesWritten := 0, BytesCompleted := 0, Length := 0,
    Complete := false }

/-- An engine that reports completion. -/
def Engine.complete : Engine := fun _ =>
  { TotalPeers := 4, ActivePeers := 1, BytesWritten := 0, BytesCompleted := 3000, Length := 3000,
    Complete := true }

/-- A model tracking no session. -/
def Model.empty : Model := { Torrents := [], DB := Store.empty, Err := none, started := [] }

/-- An engine client that accepts every locator and answers with `Torrent.example`. -/
def Client.example : Client :=
  { AddMagnet := fun _ => Except.ok Torrent.example
    AddTorrentFromFile := fun _ =>
      Except.ok (Torrent.example, Except.ok "magnet:?xt=urn:btih:c0ffee") }

/-- The model after `Torrent.example` was added to `Model.empty` at time 0, the store
accepting the write. -/
def Model.added : Model :=
  { Torrents := [("c0ffee", TorrentItem.example)]
    DB :=
      { db :=
          { torrents := [⟨1, "c0ffee", "magnet:?xt=urn:btih:c0ffee", "Fetching metadata...", 0,
              "fetching_metadata", 1000, 1000⟩]
            torrent_history := [⟨1, 1, "fetching_metadata", 0, 1000⟩]
            torrents_seq := 1
            history_seq := 1 }
        calls := 1
        slept := []
        results := [none] }
    Err := none
    started := [] }

/-- An engine with two active peers that has half of the 3000 bytes. -/
def Engine.downloading : Engine := fun _ =>
  { TotalPeers := 3, ActivePeers := 2, BytesWritten := 0, BytesCompleted := 1500,
    Length := 3000, Complete := false }

/-- An engine that has one byte of three. -/
def Engine.third : Engine := fun _ =>
  { TotalPeers := 3, ActivePeers := 2, BytesWritten := 0, BytesCompleted := 1, Length := 3,
    Complete := false }

/-! # Theorems -/

/-! ## float64 rounding -/

theorem log2Fuel_spec : ∀ (fuel n : Nat), 0 < n → n ≤ fuel →
    2 ^ log2Fuel fuel n ≤ n ∧ n < 2 ^ (log2Fuel fuel n + 1)
  | 0, n, h0, h => by omega
  | fuel + 1, n, h0, h => by
    unfold log2Fuel
    split_ifs with h2
    · constructor <;> simp <;> omega
    · have ih := log2Fuel_spec fuel (n / 2) (by omega) (by omega)
      obtain ⟨h3, h4⟩ := ih
      constructor
      · rw [pow_succ]
        have := Nat.div_mul_le_self n 2
        calc 2 ^ log2Fuel fuel (n / 2) * 2 ≤ n / 2 * 2 := Nat.mul_le_mul_right 2 h3
          _ ≤ n := this
      · rw [pow_succ]
        have : n < (n / 2 + 1) * 2 := by omega
        calc n < (n / 2 + 1) * 2 := this
          _ ≤ 2 ^ (log2Fuel fuel (n / 2) + 1) * 2 := Nat.mul_le_mul_right 2 h4

theorem ilog2_spec (n : Nat) (h : 0 < n) : 2 ^ ilog2 n ≤ n ∧ n < 2 ^ (ilog2 n + 1) :=
  log2Fuel_spec n n h le_rfl

theorem abs_eq_natAbs_div_den (q : ℚ) : |q| = (q.num.natAbs : ℚ) / (q.den : ℚ) := by
  conv_lhs => rw [← Rat.num_div_den q]
  rw [abs_div, Nat.abs_cast, ← Int.cast_abs, Int.abs_eq_natAbs, Int.cast_natCast]

theorem F64.exponent_spec (q : ℚ) (hq : q ≠ 0) :
    (2 : ℚ) ^ F64.exponent q ≤ |q| ∧ |q| < (2 : ℚ) ^ (F64.exponent q + 1) := by
  have hn : 0 < q.num.natAbs := Int.natAbs_pos.2 (Rat.num_ne_zero.2 hq)
  have hd : 0 < q.den := q.den_pos
  obtain ⟨n1, n2⟩ := ilog2_spec _ hn
  obtain ⟨d1, d2⟩ := ilog2_spec _ hd
  have n1' : (2 : ℚ) ^ (ilog2 q.num.natAbs) ≤ (q.num.natAbs : ℚ) := by exact_mod_cast n1
  have n2' : (q.num.natAbs : ℚ) < (2 : ℚ) ^ (ilog2 q.num.natAbs + 1) := by exact_mod_cast n2
  have d1' : (2 : ℚ) ^ (ilog2 q.den) ≤ (q.den : ℚ) := by exact_mod_cast d1
  have d2' : (q.den : ℚ) < (2 : ℚ) ^ (ilog2 q.den + 1) := by exact_mod_cast d2
  have hdq : (0 : ℚ) < q.den := by exact_mod_cast hd
  have h2 : (2 : ℚ) ≠ 0 := by norm_num
  have hp : ∀ k : ℕ, (0 : ℚ) < 2 ^ k := fun k => by positivity
  unfold F64.exponent
  simp only
  split_ifs with hc
  · refine ⟨hc, ?_⟩
    rw [abs_eq_natAbs_div_den, div_lt_iff₀ hdq]
    have : (2 : ℚ) ^ ((ilog2 q.num.natAbs : ℤ) - (ilog2 q.den : ℤ) + 1) =
        2 ^ (ilog2 q.num.natAbs + 1) / 2 ^ (ilog2 q.den) := by
      rw [show ((ilog2 q.num.natAbs : ℤ) - (ilog2 q.den : ℤ) + 1) =
        ((ilog2 q.num.natAbs + 1 : ℕ) : ℤ) - ((ilog2 q.den : ℕ) : ℤ) by push_cast; ring,
        zpow_sub₀ h2, zpow_natCast, zpow_natCast]
    rw [this, div_mul_eq_mul_div, lt_div_iff₀ (hp _)]
    calc (q.num.natAbs : ℚ) * 2 ^ ilog2 q.den
        < 2 ^ (ilog2 q.num.natAbs + 1) * 2 ^ ilog2 q.den :=
          mul_lt_mul_of_pos_right n2' (hp _)
      _ ≤ 2 ^ (ilog2 q.num.natAbs + 1) * (q.den : ℚ) :=
          mul_le_mul_of_nonneg_left d1' (le_of_lt (hp _))
  · rw [sub_add_cancel]
    refine ⟨?_, lt_of_not_le hc⟩
    rw [abs_eq_natAbs_div_den, le_div_iff₀ hdq]
    have : (2 : ℚ) ^ ((ilog2 q.num.natAbs : ℤ) - (ilog2 q.den : ℤ) - 1) =
        2 ^ (ilog2 q.num.natAbs) / 2 ^ (ilog2 q.den + 1) := by
      rw [show ((ilog2 q.num.natAbs : ℤ) - (ilog2 q.den : ℤ) - 1) =
        ((ilog2 q.num.natAbs : ℕ) : ℤ) - ((ilog2 q.den + 1 : ℕ) : ℤ) by push_cast; ring,
        zpow_sub₀ h2, zpow_natCast, zpow_natCast]
    rw [this, div_mul_eq_mul_div, div_le_iff₀ (hp _)]
    calc (2 : ℚ) ^ ilog2 q.num.natAbs * (q.den : ℚ)
        ≤ 2 ^ ilog2 q.num.natAbs * 2 ^ (ilog2 q.den + 1) :=
          mul_le_mul_of_nonneg_left (le_of_lt d2') (le_of_lt (hp _))
      _ ≤ (q.num.natAbs : ℚ) * 2 ^ (ilog2 q.den + 1) :=
          mul_le_mul_of_nonneg_right n1' (le_of_lt (hp _))


theorem roundEven_cases (x : ℚ) :
    (roundEven x = ⌊x⌋ ∧ x - ⌊x⌋ ≤ 1 / 2) ∨ (roundEven x = ⌊x⌋ + 1 ∧ 1 / 2 ≤ x - ⌊x⌋) := by
  unfold roundEven
  simp only
  split_ifs with h1 h2 h3
  · left; exact ⟨rfl, le_of_lt h1⟩
  · right; exact ⟨rfl, le_of_lt h2⟩
  · left; exact ⟨rfl, le_of_not_lt h2⟩
  · right; exact ⟨rfl, le_of_not_lt h1⟩

theorem abs_roundEven_sub_le (x : ℚ) : |(roundEven x : ℚ) - x| ≤ 1 / 2 := by
  have h0 := Int.floor_le x
  have h1 := Int.lt_floor_add_one x
  rw [abs_le]
  rcases roundEven_cases x with ⟨h, hr⟩ | ⟨h, hr⟩
  · rw [h]; constructor <;> linarith
  · rw [h]; push_cast; constructor <;> linarith

theorem le_roundEven (x : ℚ) (n : ℤ) (h : (n : ℚ) ≤ x) : n ≤ roundEven x := by
  have hf : n ≤ ⌊x⌋ := Int.le_floor.2 h
  rcases roundEven_cases x with ⟨he, -⟩ | ⟨he, -⟩ <;> rw [he] <;> omega

theorem roundEven_le (x : ℚ) (n : ℤ) (h : x ≤ (n : ℚ)) : roundEven x ≤ n := by
  rcases roundEven_cases x with ⟨he, -⟩ | ⟨he, hr⟩
  · rw [he]
    exact_mod_cast (Int.floor_le x).trans h
  · rw [he]
    have : (⌊x⌋ : ℚ) < n := by linarith
    have : ⌊x⌋ < n := by exact_mod_cast this
    omega

theorem roundEven_mono (x y : ℚ) (h : x ≤ y) : roundEven x ≤ roundEven y := by
  have hf : ⌊x⌋ ≤ ⌊y⌋ := Int.floor_mono h
  rcases hf.eq_or_lt with heq | hlt
  · unfold roundEven
    simp only [heq]
    have hr : x - (⌊y⌋ : ℚ) ≤ y - (⌊y⌋ : ℚ) := by linarith
    split_ifs <;> first | omega | (exfalso; linarith)
  · rcases roundEven_cases x with ⟨hx, -⟩ | ⟨hx, -⟩ <;>
      rcases roundEven_cases y with ⟨hy, -⟩ | ⟨hy, -⟩ <;> rw [hx, hy] <;> omega

theorem F64.ulp_pos (q : ℚ) : 0 < F64.ulp q := by
  unfold F64.ulp; positivity

theorem F64.round_of_ne (q : ℚ) (hq : q ≠ 0) :
    F64.round q = (roundEven (q / F64.ulp q) : ℚ) * F64.ulp q := by
  simp [F64.round, hq]

theorem F64.round_zero : F64.round 0 = 0 := by
  simp [F64.round]

theorem F64.round_le_of_grid (q c : ℚ) (n : ℤ) (hq : q ≠ 0) (h : q ≤ c)
    (hc : c = n * F64.ulp q) : F64.round q ≤ c := by
  have hu := F64.ulp_pos q
  rw [F64.round_of_ne q hq, hc]
  apply mul_le_mul_of_nonneg_right _ (le_of_lt hu)
  have : q / F64.ulp q ≤ (n : ℚ) := by rw [div_le_iff₀ hu, ← hc]; exact h
  exact_mod_cast roundEven_le _ n this

theorem F64.le_round_of_grid (q c : ℚ) (n : ℤ) (hq : q ≠ 0) (h : c ≤ q)
    (hc : c = n * F64.ulp q) : c ≤ F64.round q := by
  have hu := F64.ulp_pos q
  rw [F64.round_of_ne q hq, hc]
  apply mul_le_mul_of_nonneg_right _ (le_of_lt hu)
  have : (n : ℚ) ≤ q / F64.ulp q := by rw [le_div_iff₀ hu, ← hc]; exact h
  exact_mod_cast le_roundEven _ n this

theorem F64.round_nonneg (q : ℚ) (h : 0 ≤ q) : 0 ≤ F64.round q := by
  by_cases hq : q = 0
  · rw [hq, F64.round_zero]
  · exact F64.le_round_of_grid q 0 0 hq h (by simp)

theorem F64.pow_exponent_grid (q : ℚ) :
    (2 : ℚ) ^ F64.exponent q = ((2 ^ 52 : ℤ) : ℚ) * F64.ulp q := by
  unfold F64.ulp
  rw [zpow_sub₀ (by norm_num : (2 : ℚ) ≠ 0)]
  norm_num
  ring

theorem F64.pow_exponent_succ_grid (q : ℚ) :
    (2 : ℚ) ^ (F64.exponent q + 1) = ((2 ^ 53 : ℤ) : ℚ) * F64.ulp q := by
  unfold F64.ulp
  rw [zpow_sub₀ (by norm_num : (2 : ℚ) ≠ 0), zpow_add₀ (by norm_num : (2 : ℚ) ≠ 0)]
  norm_num
  ring

theorem F64.round_pos (q : ℚ) (h : 0 < q) : 0 < F64.round q := by
  have hs := (F64.exponent_spec q (ne_of_gt h)).1
  rw [abs_of_pos h] at hs
  have := F64.le_round_of_grid q _ _ (ne_of_gt h) hs (F64.pow_exponent_grid q)
  exact lt_of_lt_of_le (by positivity) this

theorem F64.int_on_grid (q : ℚ) (he : F64.exponent q ≤ 52) (c : ℤ) :
    ∃ n : ℤ, (c : ℚ) = n * F64.ulp q := by
  refine ⟨c * 2 ^ (52 - F64.exponent q).toNat, ?_⟩
  unfold F64.ulp
  push_cast
  rw [mul_assoc, ← zpow_natCast, Int.toNat_of_nonneg (by omega),
    ← zpow_add₀ (by norm_num : (2 : ℚ) ≠ 0)]
  simp

theorem F64.exponent_lt (q : ℚ) (hq : q ≠ 0) (k : ℤ) (h : |q| < (2 : ℚ) ^ k) :
    F64.exponent q < k := by
  have h1 := (F64.exponent_spec q hq).1
  have : (2 : ℚ) ^ F64.exponent q < (2 : ℚ) ^ k := lt_of_le_of_lt h1 h
  exact (zpow_lt_zpow_iff_right₀ (by norm_num : (1 : ℚ) < 2)).1 this

/-- Rounding a value of at most `c`, an integer below `2 ^ 52`, gives at most `c`. -/
theorem F64.round_le_int (q : ℚ) (c : ℤ) (hq : 0 ≤ q) (h : q ≤ c) (hc : (c : ℚ) < 2 ^ (53 : ℤ)) :
    F64.round q ≤ c := by
  by_cases h0 : q = 0
  · rw [h0, F64.round_zero]; rw [h0] at h; exact h
  · have he : F64.exponent q < 53 :=
      F64.exponent_lt q h0 53 (by rw [abs_of_nonneg hq]; exact lt_of_le_of_lt h hc)
    obtain ⟨n, hn⟩ := F64.int_on_grid q (by omega) c
    exact F64.round_le_of_grid q c n h0 h hn

theorem F64.round_mono (a b : ℚ) (ha : 0 ≤ a) (h : a ≤ b) : F64.round a ≤ F64.round b := by
  by_cases ha0 : a = 0
  · rw [ha0, F64.round_zero]; exact F64.round_nonneg b (ha.trans h)
  · have hapos : 0 < a := lt_of_le_of_ne ha (Ne.symm ha0)
    have hbpos : 0 < b := lt_of_lt_of_le hapos h
    have hb0 : b ≠ 0 := ne_of_gt hbpos
    obtain ⟨a1, a2⟩ := F64.exponent_spec a ha0
    obtain ⟨b1, b2⟩ := F64.exponent_spec b hb0
    rw [abs_of_pos hapos] at a1 a2
    rw [abs_of_pos hbpos] at b1 b2
    have hle : F64.exponent a ≤ F64.exponent b := by
      have : (2 : ℚ) ^ F64.exponent a < (2 : ℚ) ^ (F64.exponent b + 1) :=
        lt_of_le_of_lt (a1.trans h) b2
      have := (zpow_lt_zpow_iff_right₀ (by norm_num : (1 : ℚ) < 2)).1 this
      omega
    rcases hle.eq_or_lt with heq | hlt
    · have hu : F64.ulp a = F64.ulp b := by unfold F64.ulp; rw [heq]
      rw [F64.round_of_ne a ha0, F64.round_of_ne b hb0, hu]
      apply mul_le_mul_of_nonneg_right _ (le_of_lt (F64.ulp_pos b))
      have : a / F64.ulp b ≤ b / F64.ulp b := div_le_div_of_nonneg_right h (le_of_lt (F64.ulp_pos b))
      exact_mod_cast roundEven_mono _ _ this
    · have h1 := F64.round_le_of_grid a _ _ ha0 (le_of_lt a2) (F64.pow_exponent_succ_grid a)
      have h2 := F64.le_round_of_grid b _ _ hb0 b1 (F64.pow_exponent_grid b)
      have h3 : (2 : ℚ) ^ (F64.exponent a + 1) ≤ (2 : ℚ) ^ F64.exponent b :=
        (zpow_le_zpow_iff_right₀ (by norm_num : (1 : ℚ) < 2)).2 (by omega)
      exact h1.trans (h3.trans h2)

theorem F64.abs_round_sub_le (q : ℚ) : |F64.round q - q| ≤ |q| / 2 ^ 53 := by
  by_cases hq : q = 0
  · rw [hq, F64.round_zero]; simp
  · have hu := F64.ulp_pos q
    have h1 := abs_roundEven_sub_le (q / F64.ulp q)
    have h2 : F64.round q - q = ((roundEven (q / F64.ulp q) : ℚ) - q / F64.ulp q) * F64.ulp q := by
      rw [F64.round_of_ne q hq, sub_mul, div_mul_cancel₀ _ (ne_of_gt hu)]
    rw [h2, abs_mul, abs_of_pos hu]
    have h3 : F64.ulp q / 2 ≤ |q| / 2 ^ 53 := by
      have := (F64.exponent_spec q hq).1
      rw [F64.pow_exponent_grid] at this
      rw [le_div_iff₀ (by positivity)]
      have h4 : (((2 : ℤ) ^ 52 : ℤ) : ℚ) = 2 ^ 52 := by norm_num
      rw [h4] at this
      linarith
    calc |(roundEven (q / F64.ulp q) : ℚ) - q / F64.ulp q| * F64.ulp q
        ≤ 1 / 2 * F64.ulp q := mul_le_mul_of_nonneg_right h1 (le_of_lt hu)
      _ = F64.ulp q / 2 := by ring
      _ ≤ |q| / 2 ^ 53 := h3

theorem F64.round_rel (q : ℚ) : ∃ δ : ℚ, F64.round q = q * (1 + δ) ∧ |δ| ≤ 1 / 2 ^ 53 := by
  by_cases hq : q = 0
  · exact ⟨0, by rw [hq, F64.round_zero]; simp, by simp⟩
  · refine ⟨(F64.round q - q) / q, by field_simp, ?_⟩
    rw [abs_div, div_le_iff₀ (abs_pos.2 hq)]
    have := F64.abs_round_sub_le q
    calc |F64.round q - q| ≤ |q| / 2 ^ 53 := this
      _ = 1 / 2 ^ 53 * |q| := by ring

theorem relerr_mul (x δ a u : ℚ) (hx : |x - 1| ≤ a) (hδ : |δ| ≤ u) :
    |x * (1 + δ) - 1| ≤ a + (1 + a) * u := by
  have ha : 0 ≤ a := (abs_nonneg _).trans hx
  have hxa : |x| ≤ 1 + a := by
    have : |x| = |1 + (x - 1)| := by congr 1; ring
    rw [this]
    calc |1 + (x - 1)| ≤ |(1 : ℚ)| + |x - 1| := abs_add _ _
      _ ≤ 1 + a := by rw [abs_one]; linarith
  have : x * (1 + δ) - 1 = (x - 1) + x * δ := by ring
  rw [this]
  calc |(x - 1) + x * δ| ≤ |x - 1| + |x * δ| := abs_add _ _
    _ = |x - 1| + |x| * |δ| := by rw [abs_mul]
    _ ≤ a + (1 + a) * u := by
      have := mul_le_mul hxa hδ (abs_nonneg _) (by linarith)
      linarith

theorem relerr_div (x δ a u : ℚ) (hx : |x - 1| ≤ a) (hδ : |δ| ≤ u) (hu : u < 1) :
    |x / (1 + δ) - 1| ≤ (a + u) / (1 - u) := by
  have hδ' := abs_le.1 hδ
  have hpos : 0 < 1 + δ := by linarith
  have h1 : x / (1 + δ) - 1 = (x - 1 - δ) / (1 + δ) := by field_simp; ring
  rw [h1, abs_div, abs_of_pos hpos]
  have hnum : |x - 1 - δ| ≤ a + u := by
    calc |x - 1 - δ| ≤ |x - 1| + |δ| := abs_sub _ _
      _ ≤ a + u := by linarith
  have hau : 0 ≤ a + u := (abs_nonneg _).trans hnum
  calc |x - 1 - δ| / (1 + δ) ≤ (a + u) / (1 + δ) :=
        div_le_div_of_nonneg_right hnum (le_of_lt hpos)
    _ ≤ (a + u) / (1 - u) := by
        apply div_le_div_of_nonneg_left hau (by linarith) (by linarith)

/-- The binary64 value of `float64(b) / float64(l) * 100` is within a relative error of
`5 / 2 ^ 53` of the exact quotient. -/
theorem F64.percent_error (b l : Int) (hl : 0 < l) :
    |F64.mul (F64.div (F64.ofInt b) (F64.ofInt l)) 100 - 100 * (b : ℚ) / (l : ℚ)| ≤
      |100 * (b : ℚ) / (l : ℚ)| * (5 / 2 ^ 53) := by
  have hlq : (0 : ℚ) < l := by exact_mod_cast hl
  obtain ⟨d1, e1, b1⟩ := F64.round_rel (b : ℚ)
  obtain ⟨d2, e2, b2⟩ := F64.round_rel (l : ℚ)
  obtain ⟨d3, e3, b3⟩ := F64.round_rel (F64.ofInt b / F64.ofInt l)
  obtain ⟨d4, e4, b4⟩ := F64.round_rel (F64.div (F64.ofInt b) (F64.ofInt l) * 100)
  have hd2 := abs_le.1 b2
  have h2pos : 0 < 1 + d2 := by
    have : (1 : ℚ) / 2 ^ 53 < 1 := by norm_num
    linarith
  have hE : F64.mul (F64.div (F64.ofInt b) (F64.ofInt l)) 100 =
      100 * (b : ℚ) / (l : ℚ) * ((1 + d1) / (1 + d2) * (1 + d3) * (1 + d4)) := by
    unfold F64.mul
    rw [e4]
    unfold F64.div
    rw [e3]
    unfold F64.ofInt
    rw [e1, e2]
    field_simp
    ring
  have s1 : |(1 + d1) - 1| ≤ 1 / 2 ^ 53 := by simpa using b1
  have s2 := relerr_div (1 + d1) d2 _ _ s1 b2 (by norm_num)
  have s3 := relerr_mul _ d3 _ _ s2 b3
  have s4 := relerr_mul _ d4 _ _ s3 b4
  have hnum : ((1 : ℚ) / 2 ^ 53 + 1 / 2 ^ 53) / (1 - 1 / 2 ^ 53) +
      (1 + (1 / 2 ^ 53 + 1 / 2 ^ 53) / (1 - 1 / 2 ^ 53)) * (1 / 2 ^ 53) +
      (1 + ((1 / 2 ^ 53 + 1 / 2 ^ 53) / (1 - 1 / 2 ^ 53) +
        (1 + (1 / 2 ^ 53 + 1 / 2 ^ 53) / (1 - 1 / 2 ^ 53)) * (1 / 2 ^ 53))) * (1 / 2 ^ 53) ≤
      5 / 2 ^ 53 := by norm_num
  have s5 := s4.trans hnum
  rw [hE]
  have : 100 * (b : ℚ) / (l : ℚ) * ((1 + d1) / (1 + d2) * (1 + d3) * (1 + d4)) -
      100 * (b : ℚ) / (l : ℚ) =
      100 * (b : ℚ) / (l : ℚ) * ((1 + d1) / (1 + d2) * (1 + d3) * (1 + d4) - 1) := by ring
  rw [this, abs_mul]
  exact mul_le_mul_of_nonneg_left s5 (abs_nonneg _)

/-- The binary64 value of `float64(b) / float64(l) * 100` lies in `[0, 100]` when
`0 ≤ b ≤ l` and `0 < l`. -/
theorem F64.percent_range (b l : Int) (hl : 0 < l) (hb : 0 ≤ b) (hbl : b ≤ l) :
    0 ≤ F64.mul (F64.div (F64.ofInt b) (F64.ofInt l)) 100 ∧
      F64.mul (F64.div (F64.ofInt b) (F64.ofInt l)) 100 ≤ 100 := by
  have hlq : (0 : ℚ) < l := by exact_mod_cast hl
  have hbq : (0 : ℚ) ≤ b := by exact_mod_cast hb
  have hblq : (b : ℚ) ≤ l := by exact_mod_cast hbl
  have hx : 0 ≤ F64.ofInt b := F64.round_nonneg _ hbq
  have hy : 0 < F64.ofInt l := F64.round_pos _ hlq
  have hxy : F64.ofInt b ≤ F64.ofInt l := F64.round_mono _ _ hbq hblq
  have hq0 : 0 ≤ F64.ofInt b / F64.ofInt l := div_nonneg hx (le_of_lt hy)
  have hq1 : F64.ofInt b / F64.ofInt l ≤ ((1 : ℤ) : ℚ) := by
    rw [Int.cast_one]; exact (div_le_one hy).2 hxy
  have hd0 : 0 ≤ F64.div (F64.ofInt b) (F64.ofInt l) := F64.round_nonneg _ hq0
  have hd1 : F64.div (F64.ofInt b) (F64.ofInt l) ≤ ((1 : ℤ) : ℚ) :=
    F64.round_le_int _ 1 hq0 hq1 (by norm_num)
  rw [Int.cast_one] at hd1
  have hm0 : 0 ≤ F64.div (F64.ofInt b) (F64.ofInt l) * 100 := by positivity
  have hm1 : F64.div (F64.ofInt b) (F64.ofInt l) * 100 ≤ ((100 : ℤ) : ℚ) := by
    push_cast; linarith
  refine ⟨F64.round_nonneg _ hm0, ?_⟩
  have := F64.round_le_int _ 100 hm0 hm1 (by norm_num)
  simpa using this

theorem F64.round_nonpos (q : ℚ) (h : q ≤ 0) : F64.round q ≤ 0 := by
  by_cases hq : q = 0
  · rw [hq, F64.round_zero]
  · exact F64.round_le_of_grid q 0 0 hq h (by simp)

/-- Four successive roundings of a quotient by `t`, by 1024 and by 1024 again stay within a
relative error of `5 / 2 ^ 53` of the exact value. -/
theorem F64.speed_error (d : Int) (t : ℚ) :
    |F64.div (F64.div (F64.div (F64.ofInt d) t) 1024) 1024 - (d : ℚ) / t / 1024 / 1024| ≤
      |(d : ℚ) / t / 1024 / 1024| * (5 / 2 ^ 53) := by
  obtain ⟨d1, e1, b1⟩ := F64.round_rel (d : ℚ)
  obtain ⟨d2, e2, b2⟩ := F64.round_rel (F64.ofInt d / t)
  obtain ⟨d3, e3, b3⟩ := F64.round_rel (F64.div (F64.ofInt d) t / 1024)
  obtain ⟨d4, e4, b4⟩ := F64.round_rel (F64.div (F64.div (F64.ofInt d) t) 1024 / 1024)
  have hE : F64.div (F64.div (F64.div (F64.ofInt d) t) 1024) 1024 =
      (d : ℚ) / t / 1024 / 1024 * ((1 + d1) * (1 + d2) * (1 + d3) * (1 + d4)) := by
    simp only [F64.div, F64.ofInt] at e2 e3 e4 ⊢
    rw [e4, e3, e2, e1]
    ring
  have s1 : |(1 + d1) - 1| ≤ 1 / 2 ^ 53 := by simpa using b1
  have s2 := relerr_mul _ d2 _ _ s1 b2
  have s3 := relerr_mul _ d3 _ _ s2 b3
  have s4 := relerr_mul _ d4 _ _ s3 b4
  have hnum : (1 : ℚ) / 2 ^ 53 + (1 + 1 / 2 ^ 53) * (1 / 2 ^ 53) +
      (1 + (1 / 2 ^ 53 + (1 + 1 / 2 ^ 53) * (1 / 2 ^ 53))) * (1 / 2 ^ 53) +
      (1 + (1 / 2 ^ 53 + (1 + 1 / 2 ^ 53) * (1 / 2 ^ 53) +
        (1 + (1 / 2 ^ 53 + (1 + 1 / 2 ^ 53) * (1 / 2 ^ 53))) * (1 / 2 ^ 53))) * (1 / 2 ^ 53) ≤
      5 / 2 ^ 53 := by norm_num
  have s5 := s4.trans hnum
  rw [hE]
  have : (d : ℚ) / t / 1024 / 1024 * ((1 + d1) * (1 + d2) * (1 + d3) * (1 + d4)) -
      (d : ℚ) / t / 1024 / 1024 =
      (d : ℚ) / t / 1024 / 1024 * ((1 + d1) * (1 + d2) * (1 + d3) * (1 + d4) - 1) := by ring
  rw [this, abs_mul]
  exact mul_le_mul_of_nonneg_left s5 (abs_nonneg _)

/-! ## time and int64 -/

theorem Time.Sub_pos_iff (t u : Int) : 0 < Time.Sub t u ↔ u < t := by
  unfold Time.Sub
  simp only
  split_ifs <;> constructor <;> intro h <;> omega

theorem Duration.Seconds_pos_iff (d : Int) : 0 < Duration.Seconds d ↔ 0 < d := by
  have hS : (0 : Int) ≤ Second := by decide
  have hdec := Int.tmod_add_tdiv d Second
  unfold Duration.Seconds F64.add F64.div F64.ofInt
  constructor
  · intro h
    by_contra hd
    have hd' : 0 ≤ -d := by omega
    have h1 : Int.tdiv d Second ≤ 0 := by
      have := Int.tdiv_nonneg hd' hS
      rw [Int.neg_tdiv] at this
      omega
    have h2 : Int.tmod d Second ≤ 0 := by
      have h3 := Int.tmod_nonneg Second hd'
      have h4 := Int.tmod_add_tdiv (-d) Second
      rw [Int.neg_tdiv] at h4
      generalize Int.tmod (-d) Second = a at h3 h4
      generalize Int.tmod d Second = b at hdec ⊢
      generalize Int.tdiv d Second = c at hdec h4
      have h5 : a + b = 0 := by
        have : a + b + (Second * -c + Second * c) = 0 := by linarith
        have h6 : Second * -c + Second * c = 0 := by ring
        linarith
      omega
    have q1 : F64.round ((Int.tdiv d Second : Int) : ℚ) ≤ 0 :=
      F64.round_nonpos _ (by exact_mod_cast h1)
    have q2 : F64.round ((Int.tmod d Second : Int) : ℚ) ≤ 0 :=
      F64.round_nonpos _ (by exact_mod_cast h2)
    have q3 : F64.round (F64.round ((Int.tmod d Second : Int) : ℚ) / 1000000000) ≤ 0 :=
      F64.round_nonpos _ (div_nonpos_of_nonpos_of_nonneg q2 (by norm_num))
    have := F64.round_nonpos _ (add_nonpos q1 q3)
    linarith
  · intro hd
    have h1 : 0 ≤ Int.tdiv d Second := Int.tdiv_nonneg (le_of_lt hd) hS
    have h2 : 0 ≤ Int.tmod d Second := Int.tmod_nonneg Second (le_of_lt hd)
    have q1 : 0 ≤ F64.round ((Int.tdiv d Second : Int) : ℚ) :=
      F64.round_nonneg _ (by exact_mod_cast h1)
    have q2 : 0 ≤ F64.round ((Int.tmod d Second : Int) : ℚ) :=
      F64.round_nonneg _ (by exact_mod_cast h2)
    have q3 : 0 ≤ F64.round (F64.round ((Int.tmod d Second : Int) : ℚ) / 1000000000) :=
      F64.round_nonneg _ (div_nonneg q2 (by norm_num))
    apply F64.round_pos
    rcases h1.eq_or_lt with h0 | hpos
    · have hm : 0 < Int.tmod d Second := by
        rw [← h0] at hdec; omega
      have : 0 < F64.round ((Int.tmod d Second : Int) : ℚ) :=
        F64.round_pos _ (by exact_mod_cast hm)
      have : 0 < F64.round (F64.round ((Int.tmod d Second : Int) : ℚ) / 1000000000) :=
        F64.round_pos _ (div_pos this (by norm_num))
      linarith
    · have : 0 < F64.round ((Int.tdiv d Second : Int) : ℚ) :=
        F64.round_pos _ (by exact_mod_cast hpos)
      linarith

theorem wrapInt64_of_fits (x : Int) (h1 : -(2 ^ 63) ≤ x) (h2 : x < 2 ^ 63) :
    wrapInt64 x = x := by
  unfold wrapInt64
  rw [Int.emod_eq_of_lt (by omega) (by omega)]
  omega

/-! ## strings -/

theorem containsChars_append_left (a b sub : List Char) (h : containsChars b sub = true) :
    containsChars (a ++ b) sub = true := by
  induction a with
  | nil => simpa using h
  | cons c a ih => simp [containsChars, ih]

theorem strContains_append_left (a b sub : String) (h : strContains b sub = true) :
    strContains (a ++ b) sub = true := by
  unfold strContains at *
  rw [String.toList, String.data_append]
  exact containsChars_append_left _ _ _ h

theorem error_contains (st : Stage) (msg sub : String) (h : strContains msg sub = true) :
    strContains (ExecuteSaveTorrent.error st msg) sub = true := by
  cases st <;> simp only [ExecuteSaveTorrent.error] <;>
    first | exact h | exact strContains_append_left _ _ _ h

/-! ## tables -/

theorem filter_key_of_nodup {α : Type} (f : α → String) (k : String) :
    ∀ l : List α, (l.map f).Nodup →
      l.filter (fun r => f r == k) = [] ∨ ∃ r, r ∈ l ∧ l.filter (fun r => f r == k) = [r]
  | [], _ => Or.inl rfl
  | a :: l, h => by
    rw [List.map_cons, List.nodup_cons] at h
    by_cases hk : f a = k
    · right
      refine ⟨a, List.mem_cons_self _ _, ?_⟩
      have hnil : l.filter (fun r => f r == k) = [] := by
        rw [List.filter_eq_nil_iff]
        intro r hr hrk
        have : f r = k := by simpa using hrk
        exact h.1 (by rw [hk, ← this]; exact List.mem_map_of_mem f hr)
      simp [List.filter_cons, hk, hnil]
    · rcases filter_key_of_nodup f k l h.2 with h0 | ⟨r, hr, h1⟩
      · left; simp [List.filter_cons, hk, h0]
      · right; exact ⟨r, List.mem_cons_of_mem _ hr, by simp [List.filter_cons, hk, h1]⟩

theorem upsert_history (k : String) (item : TorrentItem) (ts : Nat) (db : DB) :
    (upsertTorrent k item ts db).torrent_history = db.torrent_history := by
  unfold upsertTorrent; split_ifs <;> rfl

theorem upsert_history_seq (k : String) (item : TorrentItem) (ts : Nat) (db : DB) :
    (upsertTorrent k item ts db).history_seq = db.history_seq := by
  unfold upsertTorrent; split_ifs <;> rfl

theorem upsert_seq_le (k : String) (item : TorrentItem) (ts : Nat) (db : DB) :
    db.torrents_seq ≤ (upsertTorrent k item ts db).torrents_seq := by
  unfold upsertTorrent; split_ifs <;> simp

theorem upsert_WF (k : String) (item : TorrentItem) (ts : Nat) (db : DB) (h : db.WF) :
    (upsertTorrent k item ts db).WF := by
  unfold upsertTorrent
  split_ifs with hany
  · refine ⟨?_, ?_, ?_, fun r hr => Nat.le_succ_of_le (h.ref_le r hr)⟩
    · have : (List.map (fun r => r.info_hash) (List.map (fun r : TorrentRow =>
          if r.info_hash = k then
            { r with progress := item.Progress, state := item.State, updated_at := ts }
          else r) db.torrents)) = db.torrents.map (fun r => r.info_hash) := by
        rw [List.map_map]; apply List.map_congr_left; intro r _; simp only [Function.comp]
        split_ifs <;> rfl
      simpa only [this] using h.hash_unique
    · have : (List.map (fun r => r.id) (List.map (fun r : TorrentRow =>
          if r.info_hash = k then
            { r with progress := item.Progress, state := item.State, updated_at := ts }
          else r) db.torrents)) = db.torrents.map (fun r => r.id) := by
        rw [List.map_map]; apply List.map_congr_left; intro r _; simp only [Function.comp]
        split_ifs <;> rfl
      simpa only [this] using h.id_unique
    · intro t ht
      simp only [List.mem_map] at ht
      obtain ⟨r, hr, rfl⟩ := ht
      have := h.id_le r hr
      split_ifs <;> simp only <;> omega
  · have hno : ∀ r ∈ db.torrents, r.info_hash ≠ k := by
      intro r hr hk
      apply hany
      rw [List.any_eq_true]
      exact ⟨r, hr, by simp [hk]⟩
    refine ⟨?_, ?_, ?_, ?_⟩
    · simp only [List.map_append, List.map_cons, List.map_nil]
      rw [List.nodup_append]
      refine ⟨h.hash_unique, by simp, ?_⟩
      intro a ha hb
      simp only [List.mem_singleton] at hb
      simp only [List.mem_map] at ha
      obtain ⟨r, hr, rfl⟩ := ha
      exact hno r hr hb
    · simp only [List.map_append, List.map_cons, List.map_nil]
      rw [List.nodup_append]
      refine ⟨h.id_unique, by simp, ?_⟩
      intro a ha hb
      simp only [List.mem_singleton] at hb
      simp only [List.mem_map] at ha
      obtain ⟨r, hr, rfl⟩ := ha
      have := h.id_le r hr
      omega
    · intro t ht
      simp only [List.mem_append, List.mem_singleton] at ht
      rcases ht with ht | rfl
      · have := h.id_le t ht
        simp only; omega
      · simp
    · intro r hr
      have := h.ref_le r hr
      simp only; omega



theorem upsert_rowsOf_ne (k k' : String) (item : TorrentItem) (ts : Nat) (db : DB)
    (hne : k' ≠ k) : (upsertTorrent k item ts db).rowsOf k' = db.rowsOf k' := by
  unfold upsertTorrent DB.rowsOf
  split_ifs with hany
  · simp only [List.filter_map]
    have : ((fun r : TorrentRow => r.info_hash == k') ∘ fun r : TorrentRow =>
        if r.info_hash = k then
          { r with progress := item.Progress, state := item.State, updated_at := ts }
        else r) = fun r => r.info_hash == k' := by
      funext r; simp only [Function.comp]; split_ifs <;> rfl
    rw [this]
    conv_rhs => rw [← List.map_id (List.filter (fun r => r.info_hash == k') db.torrents)]
    apply List.map_congr_left
    intro r hr
    have hk' : r.info_hash = k' := by simpa using (List.mem_filter.1 hr).2
    simp [hk', hne]
  · simp [List.filter_append, List.filter_cons, Ne.symm hne]

theorem upsert_rowsOf (k : String) (item : TorrentItem) (ts : Nat) (db : DB) (h : db.WF) :
    ∃ row, (upsertTorrent k item ts db).rowsOf k = [row] ∧ row.info_hash = k ∧
      row.progress = item.Progress ∧ row.state = item.State ∧ row.updated_at = ts ∧
      (db.rowsOf k = [] → row.id = db.torrents_seq + 1 ∧ row.magnet_uri = item.MagnetURI ∧
        row.name = item.Name ∧ row.created_at = ts) ∧
      (∀ old, db.rowsOf k = [old] → row.id = old.id ∧ row.magnet_uri = old.magnet_uri ∧
        row.name = old.name ∧ row.created_at = old.created_at) := by
  rcases filter_key_of_nodup (fun r : TorrentRow => r.info_hash) k db.torrents h.hash_unique
    with h0 | ⟨r, hr, h1⟩
  · have hany : db.torrents.any (fun r => r.info_hash == k) = false := by
      rw [List.any_eq_false]
      intro x hx hxk
      have : x ∈ db.torrents.filter (fun r => r.info_hash == k) := List.mem_filter.2 ⟨hx, hxk⟩
      rw [h0] at this
      exact absurd this (List.not_mem_nil _)
    refine ⟨⟨db.torrents_seq + 1, k, item.MagnetURI, item.Name, item.Progress, item.State,
      ts, ts⟩, ?_, rfl, rfl, rfl, rfl, ?_, ?_⟩
    · simp only [upsertTorrent, DB.rowsOf, hany, Bool.false_eq_true, if_false,
        List.filter_append, h0, List.nil_append]
      simp [List.filter_cons]
    · intro _; exact ⟨rfl, rfl, rfl, rfl⟩
    · intro old hold
      simp only [DB.rowsOf, h0] at hold
      exact absurd hold (by simp)
  · have hrk : r.info_hash = k := by
      have : r ∈ db.torrents.filter (fun r => r.info_hash == k) := by rw [h1]; simp
      simpa using (List.mem_filter.1 this).2
    have hany : db.torrents.any (fun r => r.info_hash == k) = true := by
      rw [List.any_eq_true]; exact ⟨r, hr, by simp [hrk]⟩
    refine ⟨{ r with progress := item.Progress, state := item.State, updated_at := ts },
      ?_, hrk, rfl, rfl, rfl, ?_, ?_⟩
    · simp only [upsertTorrent, DB.rowsOf, hany, if_true, List.filter_map]
      have : ((fun r : TorrentRow => r.info_hash == k) ∘ fun r : TorrentRow =>
          if r.info_hash = k then
            { r with progress := item.Progress, state := item.State, updated_at := ts }
          else r) = fun r => r.info_hash == k := by
        funext r; simp only [Function.comp]; split_ifs <;> rfl
      rw [this, h1]
      simp [hrk]
    · intro hnil
      simp only [DB.rowsOf, h1] at hnil
      exact absurd hnil (by simp)
    · intro old hold
      simp only [DB.rowsOf, h1, List.cons.injEq, and_true] at hold
      subst hold
      exact ⟨rfl, rfl, rfl, rfl⟩

theorem upsert_any (k k' : String) (item : TorrentItem) (ts : Nat) (db : DB) (n : Nat)
    (hn : n ≤ db.torrents_seq) :
    (upsertTorrent k item ts db).torrents.any (fun t => t.info_hash == k' && t.id == n) =
      db.torrents.any (fun t => t.info_hash == k' && t.id == n) := by
  unfold upsertTorrent
  split_ifs with hany
  · simp only [List.any_map]
    congr 1
    funext r; simp only [Function.comp]; split_ifs <;> rfl
  · simp only [List.any_append, List.any_cons, List.any_nil, Bool.or_false]
    have : (db.torrents_seq + 1 == n) = false := by
      simp only [beq_eq_false_iff_ne, ne_eq]; omega
    simp [this]



theorem insertHistory_of_rowsOf (k : String) (item : TorrentItem) (ts : Nat) (db : DB)
    (row : TorrentRow) (h : db.rowsOf k = [row]) :
    insertHistory k item ts db =
      { db with
        torrent_history := db.torrent_history ++
          [⟨db.history_seq + 1, row.id, item.State, item.Progress, ts⟩]
        history_seq := db.history_seq + 1 } := by
  unfold DB.rowsOf at h
  simp [insertHistory, h, freshIds, List.range_succ]

theorem insertHistory_WF (k : String) (item : TorrentItem) (ts : Nat) (db : DB) (h : db.WF) :
    (insertHistory k item ts db).WF := by
  refine ⟨h.hash_unique, h.id_unique, h.id_le, ?_⟩
  intro r hr
  simp only [insertHistory, List.mem_append, List.mem_map] at hr
  rcases hr with hr | ⟨p, hp, rfl⟩
  · exact h.ref_le r hr
  · have h1 : p.1 ∈ db.torrents.filter (fun r => r.info_hash == k) := (List.of_mem_zip hp).1
    exact h.id_le _ (List.mem_filter.1 h1).1

theorem savedDB_WF (k : String) (item : TorrentItem) (ts : Nat) (db : DB) (h : db.WF) :
    (savedDB k item ts db).WF :=
  insertHistory_WF _ _ _ _ (upsert_WF _ _ _ _ h)

theorem savedDB_rowsOf_ne (k k' : String) (item : TorrentItem) (ts : Nat) (db : DB)
    (hne : k' ≠ k) : (savedDB k item ts db).rowsOf k' = db.rowsOf k' := by
  rw [← upsert_rowsOf_ne k k' item ts db hne]
  rfl

/-- What a committed save leaves in the two tables. -/
theorem savedDB_spec (k : String) (item : TorrentItem) (ts : Nat) (db : DB) (h : db.WF) :
    ∃ row hrow, (savedDB k item ts db).rowsOf k = [row] ∧
      (upsertTorrent k item ts db).rowsOf k = [row] ∧
      (savedDB k item ts db).torrent_history = db.torrent_history ++ [hrow] ∧
      (savedDB k item ts db).historyOf k = db.historyOf k ++ [hrow] ∧
      hrow = ⟨db.history_seq + 1, row.id, item.State, item.Progress, ts⟩ ∧
      row.info_hash = k ∧ row.progress = item.Progress ∧ row.state = item.State ∧
      row.updated_at = ts ∧
      (db.rowsOf k = [] → row.id = db.torrents_seq + 1 ∧ row.magnet_uri = item.MagnetURI ∧
        row.name = item.Name ∧ row.created_at = ts) ∧
      (∀ old, db.rowsOf k = [old] → row.id = old.id ∧ row.magnet_uri = old.magnet_uri ∧
        row.name = old.name ∧ row.created_at = old.created_at) := by
  obtain ⟨row, hrow, hk, hp, hs, hu, hnew, hold⟩ := upsert_rowsOf k item ts db h
  have hins := insertHistory_of_rowsOf k item ts _ row hrow
  have hmem : row ∈ (upsertTorrent k item ts db).torrents := by
    have : row ∈ (upsertTorrent k item ts db).rowsOf k := by rw [hrow]; simp
    exact (List.mem_filter.1 this).1
  refine ⟨row, ⟨db.history_seq + 1, row.id, item.State, item.Progress, ts⟩, ?_, hrow, ?_, ?_,
    rfl, hk, hp, hs, hu, hnew, hold⟩
  · simp only [savedDB, hins]; exact hrow
  · simp only [savedDB, hins, upsert_history, upsert_history_seq]
  · simp only [savedDB, hins, upsert_history, upsert_history_seq, DB.historyOf,
      List.filter_append]
    congr 1
    · apply List.filter_congr
      intro r hr
      exact upsert_any k k item ts db r.torrent_id (h.ref_le r hr)
    · have : (upsertTorrent k item ts db).torrents.any
          (fun t => t.info_hash == k && t.id == row.id) = true := by
        rw [List.any_eq_true]; exact ⟨row, hmem, by simp [hk]⟩
      simp [List.filter_cons, this]

theorem savedDB_historyOf_ne (k k' : String) (item : TorrentItem) (ts : Nat) (db : DB)
    (h : db.WF) (hne : k' ≠ k) : (savedDB k item ts db).historyOf k' = db.historyOf k' := by
  obtain ⟨row, hrow, hk, -⟩ := upsert_rowsOf k item ts db h
  have hins := insertHistory_of_rowsOf k item ts _ row hrow
  have hwf := upsert_WF k item ts db h
  have hmem : row ∈ (upsertTorrent k item ts db).torrents := by
    have : row ∈ (upsertTorrent k item ts db).rowsOf k := by rw [hrow]; simp
    exact (List.mem_filter.1 this).1
  simp only [savedDB, hins, upsert_history, DB.historyOf, List.filter_append]
  have h2 : (upsertTorrent k item ts db).torrents.any
      (fun t => t.info_hash == k' && t.id == row.id) = false := by
    rw [List.any_eq_false]
    intro t ht hc
    simp only [Bool.and_eq_true, beq_iff_eq] at hc
    have : t = row := List.inj_on_of_nodup_map hwf.id_unique ht hmem hc.2
    rw [this, hk] at hc
    exact hne hc.1.symm
  simp only [List.filter_cons, h2, Bool.false_eq_true, if_false, List.filter_nil,
    List.append_nil]
  apply List.filter_congr
  intro r hr
  exact upsert_any k k' item ts db r.torrent_id (h.ref_le r hr)

/-! ## `ExecuteSaveTorrent` and `SaveTorrentState` -/

theorem execute_fault (env : Env) (infoHash : String) (item : TorrentItem) (s : Store)
    (st : Stage) (msg : String) (h : env.fault s.calls = some (st, msg)) :
    ExecuteSaveTorrent env infoHash item s =
      (some (ExecuteSaveTorrent.error st msg), { s with calls := s.calls + 1 }) := by
  cases st <;>
    simp [ExecuteSaveTorrent, h, Store.Begin, Tx.Exec, Tx.Commit, Tx.Rollback,
      ExecuteSaveTorrent.error]

theorem execute_ok (env : Env) (infoHash : String) (item : TorrentItem) (s : Store)
    (h : env.fault s.calls = none) :
    ExecuteSaveTorrent env infoHash item s =
      (none, { s with
        calls := s.calls + 1
        db := savedDB infoHash item (env.clock s.calls) s.db }) := by
  simp [ExecuteSaveTorrent, h, Store.Begin, Tx.Exec, Tx.Commit, savedDB]

theorem afterLocked_zero (s : Store) (a : Nat) : s.afterLocked a 0 = s := by
  simp [Store.afterLocked]

theorem afterLocked_succ (s : Store) (a k : Nat) :
    Store.afterLocked (Store.Sleep (Millisecond * 250 * 2 ^ a)
      { s with calls := s.calls + 1 }) (a + 1) k = s.afterLocked a (k + 1) := by
  simp only [Store.afterLocked, Store.Sleep, List.range_succ_eq_map, List.map_cons,
    List.map_map, List.append_assoc, List.singleton_append, Nat.add_zero]
  congr 1
  · omega
  · congr 2
    apply List.map_congr_left
    intro j _
    simp only [Function.comp, Nat.succ_eq_add_one]
    congr 2; omega

theorem loop_locked (env : Env) (infoHash : String) (item : TorrentItem) :
    ∀ (k n a : Nat) (s : Store), (∀ j, j < k → env.lockedAt (s.calls + j)) →
      SaveTorrentState.loop env infoHash item (k + n) a s =
        SaveTorrentState.loop env infoHash item n (a + k) (s.afterLocked a k)
  | 0, n, a, s, _ => by simp [afterLocked_zero]
  | k + 1, n, a, s, h => by
    obtain ⟨st, msg, hf, hc⟩ := h 0 (Nat.succ_pos k)
    rw [Nat.add_zero] at hf
    have hstep : SaveTorrentState.loop env infoHash item (k + 1 + n) a s =
        SaveTorrentState.loop env infoHash item (k + n) (a + 1)
          (({ s with calls := s.calls + 1 } : Store).Sleep (Millisecond * 250 * 2 ^ a)) := by
      rw [show k + 1 + n = (k + n) + 1 by omega, SaveTorrentState.loop,
        execute_fault env infoHash item s st msg hf]
      simp only [hc, if_true]
    rw [hstep, loop_locked env infoHash item k n (a + 1) _ (fun j hj => by
      have := h (j + 1) (Nat.succ_lt_succ hj)
      simpa [Store.Sleep, Nat.add_assoc, Nat.add_comm 1 j] using this),
      afterLocked_succ, show a + 1 + k = a + (k + 1) by omega]

theorem execute_calls (env : Env) (infoHash : String) (item : TorrentItem) (s : Store) :
    (ExecuteSaveTorrent env infoHash item s).2.calls = s.calls + 1 := by
  cases hf : env.fault s.calls with
  | none => rw [execute_ok env infoHash item s hf]
  | some p => obtain ⟨st, msg⟩ := p; rw [execute_fault env infoHash item s st msg hf]

theorem loop_calls_le (env : Env) (infoHash : String) (item : TorrentItem) :
    ∀ (n a : Nat) (s : Store),
      (SaveTorrentState.loop env infoHash item n a s).2.calls ≤ s.calls + n
  | 0, a, s => by simp [SaveTorrentState.loop]
  | n + 1, a, s => by
    rw [SaveTorrentState.loop]
    have hc := execute_calls env infoHash item s
    rcases hE : ExecuteSaveTorrent env infoHash item s with ⟨_ | err, s1⟩
    · rw [hE] at hc; simp only at hc ⊢; omega
    · rw [hE] at hc
      simp only at hc ⊢
      split_ifs
      · have := loop_calls_le env infoHash item n (a + 1) (s1.Sleep (Millisecond * 250 * 2 ^ a))
        simp only [Store.Sleep] at this ⊢
        omega
      · simp only; omega

theorem DB.empty_WF : DB.empty.WF :=
  ⟨by simp [DB.empty], by simp [DB.empty], by simp [DB.empty], by simp [DB.empty]⟩

/-- C3: `ExecuteSaveTorrent` is atomic on a store that satisfies its schema.  Either it
returns `nil`, the store then holds exactly one `torrents` row for the info hash, with
progress and state those of the record, and `torrent_history` is the former table followed
by one new row that refers to that row and carries the record's state and progress; or it
returns an error and the tables are those from before the call.  In particular a failure of
the history insert, after a successful upsert, returns that error and leaves the tables as
they were. -/
theorem ExecuteSaveTorrent_atomic (env : Env) (infoHash : String) (item : TorrentItem)
    (s : Store) (hwf : s.db.WF) :
    ((ExecuteSaveTorrent env infoHash item s).1 = none ∧
      ∃ row hrow, (ExecuteSaveTorrent env infoHash item s).2.db.rowsOf infoHash = [row] ∧
        row.progress = item.Progress ∧ row.state = item.State ∧
        (ExecuteSaveTorrent env infoHash item s).2.db.torrent_history =
          s.db.torrent_history ++ [hrow] ∧
        hrow.torrent_id = row.id ∧ hrow.status = item.State ∧
        hrow.progress = item.Progress) ∨
    ((∃ err, (ExecuteSaveTorrent env infoHash item s).1 = some err) ∧
      (ExecuteSaveTorrent env infoHash item s).2.db = s.db ∧
      ∀ msg, env.fault s.calls = some (Stage.history, msg) →
        (ExecuteSaveTorrent env infoHash item s).1 = some msg) := by
  cases hf : env.fault s.calls with
  | none =>
    left
    rw [execute_ok env infoHash item s hf]
    obtain ⟨row, hrow, h1, -, h3, -, h5, -, h7, h8, -⟩ :=
      savedDB_spec infoHash item (env.clock s.calls) s.db hwf
    refine ⟨rfl, row, hrow, h1, h7, h8, h3, ?_, ?_, ?_⟩ <;> rw [h5]
  | some p =>
    right
    obtain ⟨st, msg⟩ := p
    rw [execute_fault env infoHash item s st msg hf]
    refine ⟨⟨_, rfl⟩, rfl, ?_⟩
    intro msg' h'
    simp only [Option.some.injEq, Prod.mk.injEq] at h'
    obtain ⟨rfl, rfl⟩ := h'
    rfl

/-- C3 on the freshly created store, which accepts the save of `TorrentItem.example`. -/
theorem ExecuteSaveTorrent_atomic_witness :
    Store.empty.db.WF ∧
    (((ExecuteSaveTorrent Env.healthy "c0ffee" TorrentItem.example Store.empty).1 = none ∧
      ∃ row hrow, (ExecuteSaveTorrent Env.healthy "c0ffee" TorrentItem.example
          Store.empty).2.db.rowsOf "c0ffee" = [row] ∧
        row.progress = TorrentItem.example.Progress ∧ row.state = TorrentItem.example.State ∧
        (ExecuteSaveTorrent Env.healthy "c0ffee" TorrentItem.example
          Store.empty).2.db.torrent_history = Store.empty.db.torrent_history ++ [hrow] ∧
        hrow.torrent_id = row.id ∧ hrow.status = TorrentItem.example.State ∧
        hrow.progress = TorrentItem.example.Progress) ∨
    ((∃ err, (ExecuteSaveTorrent Env.healthy "c0ffee" TorrentItem.example Store.empty).1 =
        some err) ∧
      (ExecuteSaveTorrent Env.healthy "c0ffee" TorrentItem.example Store.empty).2.db =
        Store.empty.db ∧
      ∀ msg, Env.healthy.fault Store.empty.calls = some (Stage.history, msg) →
        (ExecuteSaveTorrent Env.healthy "c0ffee" TorrentItem.example Store.empty).1 = some msg)) :=
  ⟨DB.empty_WF, ExecuteSaveTorrent_atomic Env.healthy "c0ffee" TorrentItem.example Store.empty
    DB.empty_WF⟩

/-- C4: when the first and the second attempt of `SaveTorrentState` meet a "database is
locked" error and the third one succeeds, the call returns `nil`, has made exactly three
calls of `ExecuteSaveTorrent`, and has slept 250ms after the first and 500ms after the second
attempt, 750ms in total, before the attempt that committed the save. -/
theorem SaveTorrentState_succeeds_on_third_attempt (env : Env) (infoHash : String)
    (item : TorrentItem) (s : Store)
    (h1 : env.lockedAt s.calls) (h2 : env.lockedAt (s.calls + 1))
    (h3 : env.fault (s.calls + 2) = none) :
    (SaveTorrentState env infoHash item s).1 = none ∧
    (SaveTorrentState env infoHash item s).2.calls = s.calls + 3 ∧
    (SaveTorrentState env infoHash item s).2.slept =
      s.slept ++ [250 * Millisecond, 500 * Millisecond] ∧
    750 * Millisecond ≤
      ((SaveTorrentState env infoHash item s).2.slept.drop s.slept.length).sum ∧
    (SaveTorrentState env infoHash item s).2.db =
      savedDB infoHash item (env.clock (s.calls + 2)) s.db := by
  have hl : ∀ j, j < 2 → env.lockedAt (s.calls + j) := by
    intro j hj
    interval_cases j
    · simpa using h1
    · exact h2
  have hloop := loop_locked env infoHash item 2 1 0 s hl
  have hok : env.fault (s.afterLocked 0 2).calls = none := h3
  have hs : SaveTorrentState.loop env infoHash item maxRetries 0 s =
      (none, { s.afterLocked 0 2 with
        calls := (s.afterLocked 0 2).calls + 1
        db := savedDB infoHash item (env.clock (s.afterLocked 0 2).calls)
          (s.afterLocked 0 2).db }) := by
    rw [show maxRetries = 2 + 1 from rfl, hloop, SaveTorrentState.loop, execute_ok _ _ _ _ hok]
  simp only [SaveTorrentState, hs]
  refine ⟨?_, ?_, ?_, ?_, ?_⟩
  · trivial
  · rfl
  · simp [Store.afterLocked, List.range_succ, Millisecond]
  · simp [Store.afterLocked, List.range_succ, Millisecond]
  · rfl

theorem lockedTwice_lockedAt (k : Nat) (hk : k < 2) : Env.lockedTwice.lockedAt k :=
  ⟨Stage.upsert, "database is locked", by simp [Env.lockedTwice, hk], by decide⟩

/-- C4 on a store that is locked on its first two calls. -/
theorem SaveTorrentState_succeeds_on_third_attempt_witness :
    (SaveTorrentState Env.lockedTwice "c0ffee" TorrentItem.example Store.empty).1 = none ∧
    (SaveTorrentState Env.lockedTwice "c0ffee" TorrentItem.example Store.empty).2.calls =
      Store.empty.calls + 3 ∧
    (SaveTorrentState Env.lockedTwice "c0ffee" TorrentItem.example Store.empty).2.slept =
      Store.empty.slept ++ [250 * Millisecond, 500 * Millisecond] ∧
    750 * Millisecond ≤
      ((SaveTorrentState Env.lockedTwice "c0ffee" TorrentItem.example Store.empty).2.slept.drop
        Store.empty.slept.length).sum ∧
    (SaveTorrentState Env.lockedTwice "c0ffee" TorrentItem.example Store.empty).2.db =
      savedDB "c0ffee" TorrentItem.example (Env.lockedTwice.clock (Store.empty.calls + 2))
        Store.empty.db :=
  SaveTorrentState_succeeds_on_third_attempt Env.lockedTwice "c0ffee" TorrentItem.example
    Store.empty (lockedTwice_lockedAt 0 (by decide)) (lockedTwice_lockedAt 1 (by decide))
    (by decide)

/-- C5: at every attempt index `k` of `SaveTorrentState` (the `k` attempts before it having
met contention), an error of `ExecuteSaveTorrent` whose message does not contain "database is
locked" is returned as it is: attempt `k` is the last call of `ExecuteSaveTorrent`, the only
delays slept are the `k` backoffs of the attempts before it, and the tables are untouched. -/
theorem SaveTorrentState_returns_other_error (env : Env) (infoHash : String)
    (item : TorrentItem) (s : Store) (k : Nat) (hk : k < maxRetries)
    (hprev : ∀ j, j < k → env.lockedAt (s.calls + j))
    (st : Stage) (msg : String) (hf : env.fault (s.calls + k) = some (st, msg))
    (hn : strContains (ExecuteSaveTorrent.error st msg) "database is locked" = false) :
    (SaveTorrentState env infoHash item s).1 = some (ExecuteSaveTorrent.error st msg) ∧
    (SaveTorrentState env infoHash item s).2.calls = s.calls + k + 1 ∧
    (SaveTorrentState env infoHash item s).2.slept =
      s.slept ++ (List.range k).map (fun j => Millisecond * 250 * 2 ^ j) ∧
    (SaveTorrentState env infoHash item s).2.db = s.db := by
  obtain ⟨n, hn3⟩ : ∃ n, maxRetries = k + (n + 1) := ⟨maxRetries - k - 1, by omega⟩
  have hloop := loop_locked env infoHash item k (n + 1) 0 s hprev
  have hf2 : env.fault (s.afterLocked 0 k).calls = some (st, msg) := hf
  have hs : SaveTorrentState.loop env infoHash item maxRetries 0 s =
      (some (ExecuteSaveTorrent.error st msg),
        { s.afterLocked 0 k with calls := (s.afterLocked 0 k).calls + 1 }) := by
    rw [hn3, hloop, SaveTorrentState.loop, execute_fault _ _ _ _ st msg hf2]
    simp only [hn, Bool.false_eq_true, if_false]
  simp only [SaveTorrentState, hs]
  refine ⟨?_, ?_, ?_, ?_⟩
  · trivial
  · rfl
  · simp [Store.afterLocked]
  · rfl

/-- C5 at attempt index 1: the store is locked on the first call and out of space on the
second. -/
theorem SaveTorrentState_returns_other_error_witness :
    (SaveTorrentState Env.diskFull "c0ffee" TorrentItem.example Store.empty).1 =
      some (ExecuteSaveTorrent.error Stage.history "database or disk is full") ∧
    (SaveTorrentState Env.diskFull "c0ffee" TorrentItem.example Store.empty).2.calls =
      Store.empty.calls + 1 + 1 ∧
    (SaveTorrentState Env.diskFull "c0ffee" TorrentItem.example Store.empty).2.slept =
      Store.empty.slept ++ (List.range 1).map (fun j => Millisecond * 250 * 2 ^ j) ∧
    (SaveTorrentState Env.diskFull "c0ffee" TorrentItem.example Store.empty).2.db =
      Store.empty.db :=
  SaveTorrentState_returns_other_error Env.diskFull "c0ffee" TorrentItem.example Store.empty 1
    (by decide)
    (fun j hj => ⟨Stage.begin, "database is locked", by
      have : j = 0 := by omega
      subst this; rfl, by decide⟩)
    Stage.history "database or disk is full" (by decide) (by decide)

/-- C6: `SaveTorrentState` never makes more than 3 attempts, whatever the store does; and
when all three attempts meet a "database is locked" error it makes exactly 3 attempts and
returns the error "database is locked after 3 retries", not `nil`, leaving the tables as they
were. -/
theorem SaveTorrentState_gives_up_after_three_attempts (env : Env) (infoHash : String)
    (item : TorrentItem) (s : Store) :
    (SaveTorrentState env infoHash item s).2.calls ≤ s.calls + 3 ∧
    ((∀ j, j < 3 → env.lockedAt (s.calls + j)) →
      (SaveTorrentState env infoHash item s).1 = some "database is locked after 3 retries" ∧
      (SaveTorrentState env infoHash item s).1 ≠ none ∧
      (SaveTorrentState env infoHash item s).2.calls = s.calls + 3 ∧
      (SaveTorrentState env infoHash item s).2.db = s.db) := by
  refine ⟨?_, ?_⟩
  · simpa [SaveTorrentState, maxRetries] using loop_calls_le env infoHash item maxRetries 0 s
  · intro h
    have hloop := loop_locked env infoHash item 3 0 0 s h
    have hs : SaveTorrentState.loop env infoHash item maxRetries 0 s =
        (some "database is locked after 3 retries", s.afterLocked 0 3) := by
      rw [show maxRetries = 3 + 0 from rfl, hloop, SaveTorrentState.loop]
      have : "database is locked after " ++ toString maxRetries ++ " retries" =
          "database is locked after 3 retries" := by decide
      rw [this]
    simp only [SaveTorrentState, hs]
    refine ⟨?_, ?_, ?_, ?_⟩
    · trivial
    · simp
    · rfl
    · rfl

/-- C6 on a store that is locked on every call. -/
theorem SaveTorrentState_gives_up_after_three_attempts_witness :
    (∀ j, j < 3 → Env.alwaysLocked.lockedAt (Store.empty.calls + j)) ∧
    (SaveTorrentState Env.alwaysLocked "c0ffee" TorrentItem.example Store.empty).1 =
      some "database is locked after 3 retries" ∧
    (SaveTorrentState Env.alwaysLocked "c0ffee" TorrentItem.example Store.empty).2.calls = 3 :=
  have h : ∀ j, j < 3 → Env.alwaysLocked.lockedAt (Store.empty.calls + j) :=
    fun _ _ => ⟨Stage.commit, "database is locked (5) (SQLITE_BUSY)", rfl, by decide⟩
  ⟨h, ((SaveTorrentState_gives_up_after_three_attempts Env.alwaysLocked "c0ffee"
      TorrentItem.example Store.empty).2 h).1,
    ((SaveTorrentState_gives_up_after_three_attempts Env.alwaysLocked "c0ffee"
      TorrentItem.example Store.empty).2 h).2.2.1⟩

/-! ## the sampling tick -/

theorem progress_fst_indep (env env' : Env) (h h' : String) (b l : Int)
    (item : TorrentItem) (st st' : TickState) :
    (UpdateTorrents.progress env h b l item st).1 =
      (UpdateTorrents.progress env' h' b l item st').1 := by
  simp only [UpdateTorrents.progress]
  split_ifs <;> rfl

theorem speed_fst_indep (now : Int) (b : Int) (item : TorrentItem) (st st' : TickState) :
    (UpdateTorrents.speed now b item st).1 = (UpdateTorrents.speed now b item st').1 := by
  simp only [UpdateTorrents.speed]
  split_ifs <;> rfl

theorem state_fst_indep (env env' : Env) (h h' : String) (stats : Sample)
    (item : TorrentItem) (st st' : TickState) :
    (UpdateTorrents.state env h stats item st).1 =
      (UpdateTorrents.state env' h' stats item st').1 := by
  simp only [UpdateTorrents.state]
  split_ifs <;> rfl

theorem body_fst_indep (env env' : Env) (now : Int) (engine : Engine) (h h' : String)
    (item : TorrentItem) (st st' : TickState) :
    (UpdateTorrents.body env now engine h item st).1 =
      (UpdateTorrents.body env' now engine h' item st').1 := by
  unfold UpdateTorrents.body
  cases item.Torrent with
  | none => rfl
  | some t =>
    simp only
    split_ifs with hl
    · rw [state_fst_indep env env' h h' _ _ _ (UpdateTorrents.speed now _ _ _).2,
        speed_fst_indep now _ _ _ (UpdateTorrents.progress env' h' _ _ _ st').2,
        progress_fst_indep env env' h h' _ _ _ st st']
    · rw [state_fst_indep env env' h h' _ _ st st']

theorem body_fst (env : Env) (now : Int) (engine : Engine) (h : String)
    (item : TorrentItem) (st : TickState) :
    (UpdateTorrents.body env now engine h item st).1 =
      UpdateTorrents.record now engine item := by
  unfold UpdateTorrents.record
  exact body_fst_indep _ _ _ _ _ _ _ _ _

theorem range_fst (env : Env) (now : Int) (engine : Engine) :
    ∀ (r : List (String × TorrentItem)) (st : TickState),
      (UpdateTorrents.range env now engine r st).1 =
        r.map (fun e => (e.1, UpdateTorrents.record now engine e.2))
  | [], _ => rfl
  | (h, item) :: rest, st => by
    simp only [UpdateTorrents.range, List.map_cons, body_fst, range_fst env now engine rest]

theorem UpdateTorrents_Torrents (env : Env) (now : Int) (engine : Engine) (m : Model) :
    (UpdateTorrents env now engine m).1.Torrents =
      m.Torrents.map (fun e => (e.1, UpdateTorrents.record now engine e.2)) := by
  simp only [UpdateTorrents, range_fst]

theorem progress_fst_State (env : Env) (h : String) (b l : Int) (item : TorrentItem)
    (st : TickState) : (UpdateTorrents.progress env h b l item st).1.State = item.State := by
  simp only [UpdateTorrents.progress]
  split_ifs <;> rfl

theorem speed_fst_State (now : Int) (b : Int) (item : TorrentItem) (st : TickState) :
    (UpdateTorrents.speed now b item st).1.State = item.State := by
  simp only [UpdateTorrents.speed]
  split_ifs <;> rfl

theorem state_fst_State (env : Env) (h : String) (stats : Sample) (item : TorrentItem)
    (st : TickState) :
    (UpdateTorrents.state env h stats item st).1.State =
      nextState item.State stats.Complete stats.ActivePeers stats.TotalPeers
        stats.BytesCompleted stats.Length := by
  simp only [UpdateTorrents.state]
  split_ifs with hc
  · rfl
  · exact (not_not.1 hc).symm

theorem upload_State (now : Int) (stats : Sample) (item : TorrentItem) :
    (UpdateTorrents.upload now stats item).State = item.State := by
  simp only [UpdateTorrents.upload]
  split_ifs <;> rfl

theorem body_fst_State (env : Env) (now : Int) (engine : Engine) (h : String)
    (item : TorrentItem) (st : TickState) :
    (UpdateTorrents.body env now engine h item st).1.State =
      match item.Torrent with
      | none => item.State
      | some t => nextState item.State (engine t).Complete (engine t).ActivePeers
          (engine t).TotalPeers (engine t).BytesCompleted (engine t).Length := by
  unfold UpdateTorrents.body
  cases hT : item.Torrent with
  | none => rfl
  | some t =>
    simp only [upload_State, state_fst_State]
    split_ifs
    · rw [speed_fst_State, progress_fst_State]; rfl
    · rfl

theorem record_State (now : Int) (engine : Engine) (item : TorrentItem) :
    (UpdateTorrents.record now engine item).State =
      match item.Torrent with
      | none => item.State
      | some t => nextState item.State (engine t).Complete (engine t).ActivePeers
          (engine t).TotalPeers (engine t).BytesCompleted (engine t).Length := by
  unfold UpdateTorrents.record
  exact body_fst_State _ _ _ _ _ _

theorem progress_fst_Torrent (env : Env) (h : String) (b l : Int) (item : TorrentItem)
    (st : TickState) :
    (UpdateTorrents.progress env h b l item st).1.Torrent = item.Torrent := by
  simp only [UpdateTorrents.progress]
  split_ifs <;> rfl

theorem speed_fst_Torrent (now : Int) (b : Int) (item : TorrentItem) (st : TickState) :
    (UpdateTorrents.speed now b item st).1.Torrent = item.Torrent := by
  simp only [UpdateTorrents.speed]
  split_ifs <;> rfl

theorem state_fst_Torrent (env : Env) (h : String) (stats : Sample) (item : TorrentItem)
    (st : TickState) :
    (UpdateTorrents.state env h stats item st).1.Torrent = item.Torrent := by
  simp only [UpdateTorrents.state]
  split_ifs <;> rfl

theorem upload_Torrent (now : Int) (stats : Sample) (item : TorrentItem) :
    (UpdateTorrents.upload now stats item).Torrent = item.Torrent := by
  simp only [UpdateTorrents.upload]
  split_ifs <;> rfl

theorem body_fst_Torrent (env : Env) (now : Int) (engine : Engine) (h : String)
    (item : TorrentItem) (st : TickState) :
    (UpdateTorrents.body env now engine h item st).1.Torrent = item.Torrent := by
  unfold UpdateTorrents.body
  cases hT : item.Torrent with
  | none => simp [hT]
  | some t =>
    simp only [upload_Torrent, state_fst_Torrent]
    split_ifs
    · rw [speed_fst_Torrent, progress_fst_Torrent]; exact hT
    · exact hT

theorem record_Torrent (now : Int) (engine : Engine) (item : TorrentItem) :
    (UpdateTorrents.record now engine item).Torrent = item.Torrent := by
  unfold UpdateTorrents.record
  exact body_fst_Torrent _ _ _ _ _ _

theorem nextState_eq_spec (prior : String) (s : Sample) :
    nextState prior s.Complete s.ActivePeers s.TotalPeers s.BytesCompleted s.Length =
      specTransition prior s := by
  unfold nextState specTransition
  rfl

/-- C2: after one tick of `UpdateTorrents` the state of every record with a live engine
handle is the one the precedence table of the specification gives for its prior state and
the sampled metrics (`specTransition`), for every registry, store behaviour and engine; a
record without a handle is skipped and keeps its state. -/
theorem UpdateTorrents_state_is_spec_transition (env : Env) (now : Int) (engine : Engine)
    (m : Model) :
    (UpdateTorrents env now engine m).1.Torrents.map (fun e => (e.1, e.2.State)) =
      m.Torrents.map (fun e => (e.1,
        match e.2.Torrent with
        | none => e.2.State
        | some t => specTransition e.2.State (engine t))) := by
  rw [UpdateTorrents_Torrents, List.map_map]
  apply List.map_congr_left
  intro e _
  simp only [Function.comp, record_State]
  cases e.2.Torrent with
  | none => rfl
  | some t => simp only [nextState_eq_spec]

theorem runTicks_Torrents (env : Env) :
    ∀ (ticks : List (Int × Engine)) (m : Model),
      (runTicks env ticks m).Torrents =
        m.Torrents.map (fun e =>
          (e.1, ticks.foldl (fun it tk => UpdateTorrents.record tk.1 tk.2 it) e.2))
  | [], m => by simp [runTicks]
  | tk :: rest, m => by
    rw [runTicks, runTicks_Torrents env rest, UpdateTorrents_Torrents, List.map_map]
    rfl

theorem record_completed_iff (now : Int) (engine : Engine) (item : TorrentItem)
    (hs : item.State = "completed") :
    (UpdateTorrents.record now engine item).State = "completed" ↔
      ∀ t, item.Torrent = some t → (engine t).keepsCompleted := by
  rw [record_State]
  cases hT : item.Torrent with
  | none => simp [hs]
  | some t =>
    have e1 : ("downloading" = "completed") = False := by decide
    have e2 : ("searching" = "completed") = False := by decide
    have e3 : ("connecting" = "completed") = False := by decide
    simp only [Option.some.injEq, forall_eq', nextState, Sample.keepsCompleted, hs]
    split_ifs with hc h2 h3 h4
    · simp [hc]
    · simp [hc, h2, e1]
    · simp [hc, h3, e2]
    · simp [hc, h4, e3]
    · simp [hc, h2, h3, h4]

theorem foldl_record_Torrent :
    ∀ (ticks : List (Int × Engine)) (item : TorrentItem),
      (ticks.foldl (fun it tk => UpdateTorrents.record tk.1 tk.2 it) item).Torrent =
        item.Torrent
  | [], _ => rfl
  | tk :: rest, item => by
    rw [List.foldl_cons, foldl_record_Torrent rest, record_Torrent]

theorem foldl_record_completed_iff :
    ∀ (ticks : List (Int × Engine)) (item : TorrentItem), item.State = "completed" →
      ((∀ n, n ≤ ticks.length →
          ((ticks.take n).foldl (fun it tk => UpdateTorrents.record tk.1 tk.2 it) item).State =
            "completed") ↔
        ∀ tk ∈ ticks, ∀ t, item.Torrent = some t → (tk.2 t).keepsCompleted)
  | [], item, hs => by
    constructor
    · intro _ tk htk; exact absurd htk (List.not_mem_nil _)
    · intro _ n hn
      have : n = 0 := by simpa using hn
      subst this; simpa using hs
  | tk :: rest, item, hs => by
    have hstep := record_completed_iff tk.1 tk.2 item hs
    constructor
    · intro h
      have h1 : (UpdateTorrents.record tk.1 tk.2 item).State = "completed" := by
        simpa using h 1 (by simp)
      have hrest := (foldl_record_completed_iff rest _ h1).1 (fun n hn => by
        simpa using h (n + 1) (by simpa using hn))
      intro tk' htk' t ht
      rcases List.mem_cons.1 htk' with rfl | hmem
      · exact hstep.1 h1 t ht
      · exact hrest tk' hmem t (by rw [record_Torrent]; exact ht)
    · intro h n hn
      have h1 : (UpdateTorrents.record tk.1 tk.2 item).State = "completed" :=
        hstep.2 (h tk (List.mem_cons_self _ _))
      cases n with
      | zero => simpa using hs
      | succ n =>
        simp only [List.take_succ_cons, List.foldl_cons]
        refine (foldl_record_completed_iff rest _ h1).2 ?_ n (by simpa using hn)
        intro tk' hmem t ht
        exact h tk' (List.mem_cons_of_mem _ hmem) t (by rw [record_Torrent] at ht; exact ht)

/-- C1, amended: a record whose state is "completed" still has that state after each of a
sequence of ticks if and only if, at every tick of the sequence, the engine reports
completion for it or none of the rules for "downloading", "searching" and "connecting"
applies to the sampled metrics (a record without an engine handle is never sampled). -/
theorem completed_is_kept_while_engine_agrees (env : Env) (ticks : List (Int × Engine))
    (m : Model) (i : Nat) (k : String) (item : TorrentItem)
    (hi : m.Torrents[i]? = some (k, item)) (hs : item.State = "completed") :
    (∀ n, n ≤ ticks.length →
      ((runTicks env (ticks.take n) m).Torrents[i]?).map (fun e => (e.1, e.2.State)) =
        some (k, "completed")) ↔
    ∀ tk ∈ ticks, ∀ t, item.Torrent = some t → (tk.2 t).keepsCompleted := by
  rw [← foldl_record_completed_iff ticks item hs]
  simp only [runTicks_Torrents, List.getElem?_map, hi, Option.map_some', Option.some.injEq,
    Prod.mk.injEq, true_and]

/-- C1, amended, on two ticks of an engine that reports completion. -/
theorem completed_is_kept_while_engine_agrees_witness :
    (∀ n, n ≤ [((1 : Int), Engine.complete), (2, Engine.complete)].length →
      ((runTicks Env.healthy ([((1 : Int), Engine.complete), (2, Engine.complete)].take n)
        Model.done).Torrents[0]?).map (fun e => (e.1, e.2.State)) =
        some ("c0ffee", "completed")) ↔
    ∀ tk ∈ [((1 : Int), Engine.complete), (2, Engine.complete)], ∀ t,
      TorrentItem.done.Torrent = some t → (tk.2 t).keepsCompleted :=
  completed_is_kept_while_engine_agrees Env.healthy _ Model.done 0 "c0ffee" TorrentItem.done
    rfl rfl

/-- C1, counterexample: a record in state "completed" whose engine, at the next tick, does
not report completion and reports no peers is moved to "searching". -/
theorem completed_regresses_to_searching :
    Model.done.Torrents.map (fun e => (e.1, e.2.State)) = [("c0ffee", "completed")] ∧
    (UpdateTorrents Env.healthy 1 Engine.noPeers Model.done).1.Torrents.map
      (fun e => (e.1, e.2.State)) = [("c0ffee", "searching")] := by
  refine ⟨rfl, ?_⟩
  rw [UpdateTorrents_Torrents]
  simp only [Model.done, List.map_cons, List.map_nil, record_State]
  rfl

theorem execute_results (env : Env) (infoHash : String) (item : TorrentItem) (s : Store) :
    (ExecuteSaveTorrent env infoHash item s).2.results = s.results := by
  cases hf : env.fault s.calls with
  | none => rw [execute_ok env infoHash item s hf]
  | some p => obtain ⟨st, msg⟩ := p; rw [execute_fault env infoHash item s st msg hf]

theorem loop_results (env : Env) (infoHash : String) (item : TorrentItem) :
    ∀ (n a : Nat) (s : Store),
      (SaveTorrentState.loop env infoHash item n a s).2.results = s.results
  | 0, a, s => by simp [SaveTorrentState.loop]
  | n + 1, a, s => by
    rw [SaveTorrentState.loop]
    have hc := execute_results env infoHash item s
    rcases hE : ExecuteSaveTorrent env infoHash item s with ⟨_ | err, s1⟩
    · rw [hE] at hc; exact hc
    · rw [hE] at hc
      simp only at hc ⊢
      split_ifs
      · rw [loop_results env infoHash item n (a + 1)]; exact hc
      · exact hc

theorem save_results (env : Env) (infoHash : String) (item : TorrentItem) (s : Store) :
    (SaveTorrentState env infoHash item s).2.results =
      s.results ++ [(SaveTorrentState env infoHash item s).1] := by
  simp only [SaveTorrentState, loop_results]

theorem TickState.grows_refl (st : TickState) : st.grows st :=
  ⟨[], by simp, rfl⟩

theorem TickState.grows_trans {a b c : TickState} (h1 : a.grows b) (h2 : b.grows c) :
    a.grows c := by
  obtain ⟨n1, hr1, he1⟩ := h1
  obtain ⟨n2, hr2, he2⟩ := h2
  refine ⟨n1 ++ n2, by rw [hr2, hr1, List.append_assoc], ?_⟩
  rw [he2, he1, lastError, lastError, lastError, List.foldl_append]

theorem TickState.grows_needsUpdate (st : TickState) (b : Bool) :
    st.grows { st with needsUpdate := b } :=
  ⟨[], by simp, rfl⟩

theorem save_grows (env : Env) (infoHash : String) (item : TorrentItem) (st : TickState) :
    st.grows (st.save env infoHash item) := by
  have hr := save_results env infoHash item st.DB
  unfold TickState.save
  rcases hS : SaveTorrentState env infoHash item st.DB with ⟨_ | err, s⟩
  · rw [hS] at hr; exact ⟨[none], hr, rfl⟩
  · rw [hS] at hr; exact ⟨[some err], hr, rfl⟩

theorem progress_grows (env : Env) (h : String) (b l : Int) (item : TorrentItem)
    (st : TickState) : st.grows (UpdateTorrents.progress env h b l item st).2 := by
  simp only [UpdateTorrents.progress]
  split_ifs
  · exact TickState.grows_trans (st.grows_needsUpdate true) (save_grows _ _ _ _)
  · exact st.grows_refl

theorem speed_grows (now : Int) (b : Int) (item : TorrentItem) (st : TickState) :
    st.grows (UpdateTorrents.speed now b item st).2 := by
  simp only [UpdateTorrents.speed]
  split_ifs
  · exact st.grows_needsUpdate true
  · exact st.grows_refl

theorem state_grows (env : Env) (h : String) (stats : Sample) (item : TorrentItem)
    (st : TickState) : st.grows (UpdateTorrents.state env h stats item st).2 := by
  simp only [UpdateTorrents.state]
  split_ifs
  · exact TickState.grows_trans (st.grows_needsUpdate true) (save_grows _ _ _ _)
  · exact st.grows_refl

theorem body_grows (env : Env) (now : Int) (engine : Engine) (h : String)
    (item : TorrentItem) (st : TickState) :
    st.grows (UpdateTorrents.body env now engine h item st).2 := by
  unfold UpdateTorrents.body
  cases item.Torrent with
  | none => exact st.grows_refl
  | some t =>
    simp only
    split_ifs
    · exact TickState.grows_trans (TickState.grows_trans (progress_grows _ _ _ _ _ _)
        (speed_grows _ _ _ _)) (state_grows _ _ _ _ _)
    · exact state_grows _ _ _ _ _

theorem range_grows (env : Env) (now : Int) (engine : Engine) :
    ∀ (r : List (String × TorrentItem)) (st : TickState),
      st.grows (UpdateTorrents.range env now engine r st).2
  | [], st => st.grows_refl
  | (h, item) :: rest, st => by
    simp only [UpdateTorrents.range]
    exact TickState.grows_trans (body_grows env now engine h item st)
      (range_grows env now engine rest _)

theorem lastError_of_failure :
    ∀ (log : List (Option String)) (err : Option String), (∃ e, some e ∈ log) →
      ∃ e, lastError log err = some e ∧ some e ∈ log := by
  intro log
  induction log using List.reverseRecOn with
  | nil => intro _ ⟨e, he⟩; exact absurd he (List.not_mem_nil _)
  | append_singleton l a ih =>
    intro err ⟨e, he⟩
    cases a with
    | some e' => exact ⟨e', by simp [lastError, List.foldl_append], by simp⟩
    | none =>
      have hl : ∃ e, some e ∈ l := by
        refine ⟨e, ?_⟩
        simpa using he
      obtain ⟨e1, h1, h2⟩ := ih err hl
      refine ⟨e1, ?_, by simp [h2]⟩
      simpa [lastError, List.foldl_append] using h1

/-- C9: a tick tolerates failed saves.  The records that `UpdateTorrents` leaves in the
registry are the same for every behaviour of the store (so the same as when every save
succeeds), and whenever at least one `SaveTorrentState` of the tick returned an error, the
slot `Err` holds an error that a save of that tick returned. -/
theorem UpdateTorrents_tolerates_failed_saves (env env' : Env) (now : Int) (engine : Engine)
    (m m' : Model) (hT : m'.Torrents = m.Torrents) :
    (UpdateTorrents env now engine m).1.Torrents =
      (UpdateTorrents env' now engine m').1.Torrents ∧
    ((∃ e, some e ∈ (UpdateTorrents env now engine m).1.DB.results.drop m.DB.results.length) →
      ∃ e, (UpdateTorrents env now engine m).1.Err = some e ∧
        some e ∈ (UpdateTorrents env now engine m).1.DB.results.drop m.DB.results.length) := by
  refine ⟨by rw [UpdateTorrents_Torrents, UpdateTorrents_Torrents, hT], ?_⟩
  obtain ⟨new, hr, he⟩ := range_grows env now engine m.Torrents
    { DB := m.DB, Err := m.Err, needsUpdate := false }
  have hdrop : (UpdateTorrents env now engine m).1.DB.results.drop m.DB.results.length = new := by
    simp only [UpdateTorrents, hr, List.drop_left]
  rw [hdrop]
  intro hfail
  obtain ⟨e, h1, h2⟩ := lastError_of_failure new m.Err hfail
  exact ⟨e, by simp only [UpdateTorrents, he, h1], h2⟩

/-- C9 on a tick whose two saves both fail against a store that is locked on every call. -/
theorem UpdateTorrents_tolerates_failed_saves_witness :
    (∃ e, some e ∈ (UpdateTorrents Env.alwaysLocked 1000000000 Engine.downloading
        Model.added).1.DB.results.drop Model.added.DB.results.length) ∧
    ∃ e, (UpdateTorrents Env.alwaysLocked 1000000000 Engine.downloading Model.added).1.Err =
        some e ∧
      some e ∈ (UpdateTorrents Env.alwaysLocked 1000000000 Engine.downloading
        Model.added).1.DB.results.drop Model.added.DB.results.length :=
  have h : ∃ e, some e ∈ (UpdateTorrents Env.alwaysLocked 1000000000 Engine.downloading
      Model.added).1.DB.results.drop Model.added.DB.results.length :=
    ⟨"database is locked after 3 retries", by decide!⟩
  ⟨h, (UpdateTorrents_tolerates_failed_saves Env.alwaysLocked Env.healthy 1000000000
    Engine.downloading Model.added Model.added rfl).2 h⟩

theorem save_accepts (env : Env) (hacc : env.accepts) (infoHash : String) (item : TorrentItem)
    (s : Store) :
    SaveTorrentState env infoHash item s =
      (none, { db := savedDB infoHash item (env.clock s.calls) s.db, calls := s.calls + 1,
               slept := s.slept, results := s.results ++ [none] }) := by
  simp only [SaveTorrentState, show maxRetries = 2 + 1 from rfl, SaveTorrentState.loop,
    execute_ok env infoHash item s (hacc _)]

theorem tickSave_accepts (env : Env) (hacc : env.accepts) (infoHash : String)
    (item : TorrentItem) (st : TickState) :
    (st.save env infoHash item).DB.db =
      savedDB infoHash item (env.clock st.DB.calls) st.DB.db := by
  simp only [TickState.save, save_accepts env hacc]

theorem HistStep.refl (h : String) (db : DB) (hwf : db.WF) : HistStep h [] db db :=
  ⟨hwf, fun _ _ => rfl, [], by simp, rfl⟩

theorem HistStep.trans {h : String} {r1 r2 : List (String × ℚ)} {a b c : DB}
    (h1 : HistStep h r1 a b) (h2 : HistStep h r2 b c) : HistStep h (r1 ++ r2) a c := by
  obtain ⟨_, ho1, n1, hh1, hm1⟩ := h1
  obtain ⟨wf2, ho2, n2, hh2, hm2⟩ := h2
  refine ⟨wf2, fun k hk => by rw [ho2 k hk, ho1 k hk], n1 ++ n2, ?_, ?_⟩
  · rw [hh2, hh1, List.append_assoc]
  · rw [List.map_append, hm1, hm2]

theorem HistStep.saved (h : String) (item : TorrentItem) (ts : Nat) (db : DB) (hwf : db.WF) :
    HistStep h [(item.State, item.Progress)] db (savedDB h item ts db) := by
  obtain ⟨row, hrow, -, -, -, hh, he, -⟩ := savedDB_spec h item ts db hwf
  refine ⟨savedDB_WF h item ts db hwf,
    fun k hk => savedDB_historyOf_ne h k item ts db hwf hk, [hrow], hh, ?_⟩
  rw [he]; rfl

theorem progress_fst_Progress (env : Env) (h : String) (b l : Int) (item : TorrentItem)
    (st : TickState) :
    (UpdateTorrents.progress env h b l item st).1.Progress =
      F64.mul (F64.div (F64.ofInt b) (F64.ofInt l)) 100 := by
  simp only [UpdateTorrents.progress]
  split_ifs with hc
  · rfl
  · exact (not_not.1 hc).symm

theorem speed_fst_Progress (now : Int) (b : Int) (item : TorrentItem) (st : TickState) :
    (UpdateTorrents.speed now b item st).1.Progress = item.Progress := by
  simp only [UpdateTorrents.speed]
  split_ifs <;> rfl

theorem state_fst_Progress (env : Env) (h : String) (stats : Sample) (item : TorrentItem)
    (st : TickState) :
    (UpdateTorrents.state env h stats item st).1.Progress = item.Progress := by
  simp only [UpdateTorrents.state]
  split_ifs <;> rfl

theorem upload_Progress (now : Int) (stats : Sample) (item : TorrentItem) :
    (UpdateTorrents.upload now stats item).Progress = item.Progress := by
  simp only [UpdateTorrents.upload]
  split_ifs <;> rfl

theorem body_fst_Progress (env : Env) (now : Int) (engine : Engine) (h : String)
    (item : TorrentItem) (st : TickState) :
    (UpdateTorrents.body env now engine h item st).1.Progress =
      match item.Torrent with
      | none => item.Progress
      | some t =>
        if (engine t).Length > 0 then
          F64.mul (F64.div (F64.ofInt (engine t).BytesCompleted) (F64.ofInt (engine t).Length)) 100
        else item.Progress := by
  unfold UpdateTorrents.body
  cases hT : item.Torrent with
  | none => rfl
  | some t =>
    simp only [upload_Progress, state_fst_Progress]
    split_ifs
    · rw [speed_fst_Progress, progress_fst_Progress]
    · rfl

theorem record_Progress (now : Int) (engine : Engine) (item : TorrentItem) :
    (UpdateTorrents.record now engine item).Progress =
      match item.Torrent with
      | none => item.Progress
      | some t =>
        if (engine t).Length > 0 then
          F64.mul (F64.div (F64.ofInt (engine t).BytesCompleted) (F64.ofInt (engine t).Length)) 100
        else item.Progress := by
  unfold UpdateTorrents.record
  exact body_fst_Progress _ _ _ _ _ _

theorem speed_snd_DB (now : Int) (b : Int) (item : TorrentItem) (st : TickState) :
    (UpdateTorrents.speed now b item st).2.DB = st.DB := by
  simp only [UpdateTorrents.speed]
  split_ifs <;> rfl

theorem tickRows_of_eq (item item1 : TorrentItem) (hp : item1.Progress = item.Progress)
    (hs : item1.State = item.State) : tickRows item item1 = [] := by
  simp [tickRows, hp, hs]

theorem progress_hist (env : Env) (hacc : env.accepts) (h : String) (b l : Int)
    (item : TorrentItem) (st : TickState) (hwf : st.DB.db.WF) :
    HistStep h (tickRows item (UpdateTorrents.progress env h b l item st).1) st.DB.db
      (UpdateTorrents.progress env h b l item st).2.DB.db := by
  simp only [UpdateTorrents.progress]
  split_ifs with hc
  · simp only [tickSave_accepts env hacc]
    have : tickRows item { item with Progress := F64.mul (F64.div (F64.ofInt b) (F64.ofInt l)) 100 } =
        [(item.State, F64.mul (F64.div (F64.ofInt b) (F64.ofInt l)) 100)] := by
      simp [tickRows, hc]
    rw [this]
    exact HistStep.saved h { item with Progress := _ } _ _ hwf
  · rw [tickRows_of_eq _ _ rfl rfl]; exact HistStep.refl h _ hwf

theorem state_hist (env : Env) (hacc : env.accepts) (h : String) (stats : Sample)
    (item : TorrentItem) (st : TickState) (hwf : st.DB.db.WF) :
    HistStep h (tickRows item (UpdateTorrents.state env h stats item st).1) st.DB.db
      (UpdateTorrents.state env h stats item st).2.DB.db := by
  simp only [UpdateTorrents.state]
  split_ifs with hc
  · simp only [tickSave_accepts env hacc]
    generalize hn : nextState item.State stats.Complete stats.ActivePeers stats.TotalPeers
      stats.BytesCompleted stats.Length = newState at hc ⊢
    have : tickRows item { item with State := newState } = [(newState, item.Progress)] := by
      simp [tickRows, hc]
    rw [this]
    exact HistStep.saved h { item with State := _ } _ _ hwf
  · rw [tickRows_of_eq _ _ rfl rfl]; exact HistStep.refl h _ hwf

theorem tickRows_congr (a a1 b b1 : TorrentItem) (h1 : a.Progress = b.Progress)
    (h2 : a.State = b.State) (h3 : a1.Progress = b1.Progress) (h4 : a1.State = b1.State) :
    tickRows a a1 = tickRows b b1 := by
  simp only [tickRows, h1, h2, h3, h4]

theorem tickRows_split (a b c : TorrentItem) (hs : b.State = a.State)
    (hp : c.Progress = b.Progress) : tickRows a b ++ tickRows b c = tickRows a c := by
  simp only [tickRows, hs, hp, ne_eq, not_true_eq_false, if_false, List.append_nil,
    List.nil_append]

theorem body_hist (env : Env) (hacc : env.accepts) (now : Int) (engine : Engine) (h : String)
    (item : TorrentItem) (st : TickState) (hwf : st.DB.db.WF) :
    HistStep h (tickRows item (UpdateTorrents.body env now engine h item st).1) st.DB.db
      (UpdateTorrents.body env now engine h item st).2.DB.db := by
  unfold UpdateTorrents.body
  cases hT : item.Torrent with
  | none => simp only; rw [tickRows_of_eq _ _ rfl rfl]; exact HistStep.refl h _ hwf
  | some t =>
    simp only
    split_ifs with hl
    · have h1 := progress_hist env hacc h (engine t).BytesCompleted (engine t).Length
        (UpdateTorrents.metrics (engine t) item) st hwf
      have h2 := state_hist env hacc h (engine t)
        (UpdateTorrents.speed now (engine t).BytesCompleted
          (UpdateTorrents.progress env h (engine t).BytesCompleted (engine t).Length
            (UpdateTorrents.metrics (engine t) item) st).1
          (UpdateTorrents.progress env h (engine t).BytesCompleted (engine t).Length
            (UpdateTorrents.metrics (engine t) item) st).2).1
        (UpdateTorrents.speed now (engine t).BytesCompleted
          (UpdateTorrents.progress env h (engine t).BytesCompleted (engine t).Length
            (UpdateTorrents.metrics (engine t) item) st).1
          (UpdateTorrents.progress env h (engine t).BytesCompleted (engine t).Length
            (UpdateTorrents.metrics (engine t) item) st).2).2
        (by rw [speed_snd_DB]; exact h1.1)
      rw [speed_snd_DB] at h2
      have h3 := HistStep.trans h1 h2
      rw [tickRows_congr _ _ _ _ (Eq.refl _) (Eq.refl _) (speed_fst_Progress _ _ _ _).symm
        (speed_fst_State _ _ _ _).symm, tickRows_split _ _ _ (by rw [speed_fst_State,
          progress_fst_State]) (by rw [state_fst_Progress])] at h3
      rw [tickRows_congr item _ (UpdateTorrents.metrics (engine t) item) _ rfl rfl
        (upload_Progress _ _ _) (upload_State _ _ _)]
      exact h3
    · have h2 := state_hist env hacc h (engine t) (UpdateTorrents.metrics (engine t) item) st hwf
      rw [tickRows_congr item _ (UpdateTorrents.metrics (engine t) item) _ rfl rfl
        (upload_Progress _ _ _) (upload_State _ _ _)]
      exact h2


theorem range_hist (env : Env) (hacc : env.accepts) (now : Int) (engine : Engine) :
    ∀ (r : List (String × TorrentItem)) (st : TickState), st.DB.db.WF →
      (r.map Prod.fst).Nodup →
      (UpdateTorrents.range env now engine r st).2.DB.db.WF ∧
      (∀ k, k ∉ r.map Prod.fst →
        (UpdateTorrents.range env now engine r st).2.DB.db.historyOf k =
          st.DB.db.historyOf k) ∧
      ∀ k item, (k, item) ∈ r →
        ∃ new, (UpdateTorrents.range env now engine r st).2.DB.db.historyOf k =
            st.DB.db.historyOf k ++ new ∧
          new.map (fun x => (x.status, x.progress)) =
            tickRows item (UpdateTorrents.record now engine item)
  | [], st, hwf, _ => ⟨hwf, fun _ _ => rfl, fun _ _ hm => absurd hm (List.not_mem_nil _)⟩
  | (h, it) :: rest, st, hwf, hnd => by
    rw [List.map_cons, List.nodup_cons] at hnd
    have hb := body_hist env hacc now engine h it st hwf
    rw [body_fst] at hb
    obtain ⟨hwf1, hother, new, hnew, hmap⟩ := hb
    obtain ⟨hwf2, hout, hin⟩ := range_hist env hacc now engine rest
      (UpdateTorrents.body env now engine h it st).2 hwf1 hnd.2
    simp only [UpdateTorrents.range]
    refine ⟨hwf2, ?_, ?_⟩
    · intro k hk
      simp only [List.map_cons, List.mem_cons, not_or] at hk
      rw [hout k hk.2, hother k hk.1]
    · intro k item hm
      rcases List.mem_cons.1 hm with heq | hm'
      · simp only [Prod.mk.injEq] at heq
        obtain ⟨rfl, rfl⟩ := heq
        exact ⟨new, by rw [hout k hnd.1, hnew], hmap⟩
      · have hk : k ≠ h := by
          rintro rfl
          exact hnd.1 (List.mem_map.2 ⟨(k, item), hm', rfl⟩)
        obtain ⟨new', hnew', hmap'⟩ := hin k item hm'
        exact ⟨new', by rw [hnew', hother k hk], hmap'⟩

/-- One tick, with the store accepting writes, appends to the history of a session the rows
`tickRows` of its record. -/
theorem UpdateTorrents_hist (env : Env) (hacc : env.accepts) (now : Int) (engine : Engine)
    (m : Model) (hwf : m.DB.db.WF) (hnd : (m.Torrents.map Prod.fst).Nodup)
    (k : String) (item : TorrentItem) (hmem : (k, item) ∈ m.Torrents) :
    ∃ new, (UpdateTorrents env now engine m).1.DB.db.historyOf k =
        m.DB.db.historyOf k ++ new ∧
      new.map (fun x => (x.status, x.progress)) =
        tickRows item (UpdateTorrents.record now engine item) :=
  (range_hist env hacc now engine m.Torrents
    { DB := m.DB, Err := m.Err, needsUpdate := false } hwf hnd).2.2 k item hmem

/-- C7, amended: in a tick during which the store accepts writes, a session of the registry
gets one new `torrent_history` row for each of the two fields, progress and state, that the
tick changes.  If neither changes no row is appended; if exactly one changes, exactly one
row, carrying the state and progress the record has at the end of the tick; if both change,
two rows: first the new progress with the state from before the tick, then the new progress
with the new state. -/
theorem UpdateTorrents_appends_one_row_per_changed_field (env : Env) (hacc : env.accepts)
    (now : Int) (engine : Engine) (m : Model) (hwf : m.DB.db.WF)
    (hnd : (m.Torrents.map Prod.fst).Nodup) (k : String) (item : TorrentItem)
    (hmem : (k, item) ∈ m.Torrents) :
    (k, UpdateTorrents.record now engine item) ∈ (UpdateTorrents env now engine m).1.Torrents ∧
    ∃ new, (UpdateTorrents env now engine m).1.DB.db.historyOf k =
        m.DB.db.historyOf k ++ new ∧
      ((UpdateTorrents.record now engine item).Progress = item.Progress →
        (UpdateTorrents.record now engine item).State = item.State → new = []) ∧
      ((UpdateTorrents.record now engine item).Progress ≠ item.Progress →
        (UpdateTorrents.record now engine item).State = item.State →
        new.map (fun x => (x.status, x.progress)) =
          [((UpdateTorrents.record now engine item).State,
            (UpdateTorrents.record now engine item).Progress)]) ∧
      ((UpdateTorrents.record now engine item).Progress = item.Progress →
        (UpdateTorrents.record now engine item).State ≠ item.State →
        new.map (fun x => (x.status, x.progress)) =
          [((UpdateTorrents.record now engine item).State,
            (UpdateTorrents.record now engine item).Progress)]) ∧
      ((UpdateTorrents.record now engine item).Progress ≠ item.Progress →
        (UpdateTorrents.record now engine item).State ≠ item.State →
        new.map (fun x => (x.status, x.progress)) =
          [(item.State, (UpdateTorrents.record now engine item).Progress),
           ((UpdateTorrents.record now engine item).State,
            (UpdateTorrents.record now engine item).Progress)]) := by
  refine ⟨?_, ?_⟩
  · rw [UpdateTorrents_Torrents]
    exact List.mem_map_of_mem (fun e => (e.1, UpdateTorrents.record now engine e.2)) hmem
  · obtain ⟨new, h1, h2⟩ := UpdateTorrents_hist env hacc now engine m hwf hnd k item hmem
    refine ⟨new, h1, ?_, ?_, ?_, ?_⟩
    · intro hp hs
      rw [tickRows_of_eq _ _ hp hs] at h2
      simpa using h2
    · intro hp hs
      rw [h2]; simp [tickRows, hp, hs]
    · intro hp hs
      rw [h2]; simp [tickRows, hp, hs]
    · intro hp hs
      rw [h2]; simp [tickRows, hp, hs]

theorem Model.added_WF : Model.added.DB.db.WF :=
  ⟨by decide, by decide, by decide, by decide⟩

/-- C7, amended, on a tick that changes both the progress and the state of the session. -/
theorem UpdateTorrents_appends_one_row_per_changed_field_witness :
    (("c0ffee", UpdateTorrents.record 1000000000 Engine.downloading TorrentItem.example) ∈
      (UpdateTorrents Env.healthy 1000000000 Engine.downloading Model.added).1.Torrents) ∧
    ∃ new, (UpdateTorrents Env.healthy 1000000000 Engine.downloading
        Model.added).1.DB.db.historyOf "c0ffee" = Model.added.DB.db.historyOf "c0ffee" ++ new ∧
      new.map (fun x => (x.status, x.progress)) =
        [("fetching_metadata", 50), ("downloading", 50)] := by
  obtain ⟨h1, new, h2, -, -, -, h3⟩ :=
    UpdateTorrents_appends_one_row_per_changed_field Env.healthy (fun _ => rfl) 1000000000
      Engine.downloading Model.added Model.added_WF (by decide) "c0ffee" TorrentItem.example
      (by decide)
  refine ⟨h1, new, h2, ?_⟩
  have hp : (UpdateTorrents.record 1000000000 Engine.downloading TorrentItem.example).Progress =
      50 := by decide!
  have hs : (UpdateTorrents.record 1000000000 Engine.downloading TorrentItem.example).State =
      "downloading" := by decide!
  rw [h3 (by rw [hp]; decide!) (by rw [hs]; decide), hp, hs]
  rfl

/-- C7, counterexample: a tick that changes both the state ("fetching_metadata" to
"downloading") and the progress (0 to 50) of a session appends two history rows, the first
of which carries a state the record does not have at the end of the tick. -/
theorem UpdateTorrents_appends_two_rows_when_both_change :
    (Model.added.Torrents.map (fun e => (e.1, e.2.State, e.2.Progress)) =
      [("c0ffee", "fetching_metadata", 0)]) ∧
    ((UpdateTorrents Env.healthy 1000000000 Engine.downloading Model.added).1.Torrents.map
      (fun e => (e.1, e.2.State, e.2.Progress)) = [("c0ffee", "downloading", 50)]) ∧
    ((Model.added.DB.db.historyOf "c0ffee").map (fun x => (x.status, x.progress)) =
      [("fetching_metadata", 0)]) ∧
    (((UpdateTorrents Env.healthy 1000000000 Engine.downloading
        Model.added).1.DB.db.historyOf "c0ffee").map (fun x => (x.status, x.progress)) =
      [("fetching_metadata", 0), ("fetching_metadata", 50), ("downloading", 50)]) := by
  refine ⟨?_, ?_, ?_, ?_⟩ <;> decide!

/-- C8, amended: for a session with a live engine handle and sampled `totalLength > 0`, the
progress stored on the record after a tick is the float64 value of
`float64(bytesCompleted) / float64(totalLength) * 100`, each of the two conversions, the
division and the multiplication rounded to the nearest float64.  It differs from the exact
rational `100 * bytesCompleted / totalLength` by a relative error of at most `5 / 2 ^ 53`, and
it lies in `[0, 100]` whenever `0 ≤ bytesCompleted ≤ totalLength`. -/
theorem UpdateTorrents_progress_is_rounded_percentage (env : Env) (now : Int)
    (engine : Engine) (m : Model) (k : String) (item : TorrentItem) (t : Torrent)
    (hmem : (k, item) ∈ m.Torrents) (ht : item.Torrent = some t)
    (hl : 0 < (engine t).Length) :
    (k, UpdateTorrents.record now engine item) ∈ (UpdateTorrents env now engine m).1.Torrents ∧
    (UpdateTorrents.record now engine item).Progress =
      F64.mul (F64.div (F64.ofInt (engine t).BytesCompleted) (F64.ofInt (engine t).Length))
        100 ∧
    |(UpdateTorrents.record now engine item).Progress -
        100 * ((engine t).BytesCompleted : ℚ) / ((engine t).Length : ℚ)| ≤
      |100 * ((engine t).BytesCompleted : ℚ) / ((engine t).Length : ℚ)| * (5 / 2 ^ 53) ∧
    (0 ≤ (engine t).BytesCompleted → (engine t).BytesCompleted ≤ (engine t).Length →
      0 ≤ (UpdateTorrents.record now engine item).Progress ∧
        (UpdateTorrents.record now engine item).Progress ≤ 100) := by
  have hp : (UpdateTorrents.record now engine item).Progress =
      F64.mul (F64.div (F64.ofInt (engine t).BytesCompleted) (F64.ofInt (engine t).Length))
        100 := by
    rw [record_Progress, ht]
    simp only [gt_iff_lt, hl, if_true]
  refine ⟨?_, hp, ?_, ?_⟩
  · rw [UpdateTorrents_Torrents]
    exact List.mem_map_of_mem (fun e => (e.1, UpdateTorrents.record now engine e.2)) hmem
  · rw [hp]; exact F64.percent_error _ _ hl
  · intro hb hbl
    rw [hp]; exact F64.percent_range _ _ hl hb hbl

/-- C8, amended, on a session that has one byte of three. -/
theorem UpdateTorrents_progress_is_rounded_percentage_witness :
    (("c0ffee", UpdateTorrents.record 1000000000 Engine.third TorrentItem.example) ∈
      (UpdateTorrents Env.healthy 1000000000 Engine.third Model.added).1.Torrents) ∧
    (UpdateTorrents.record 1000000000 Engine.third TorrentItem.example).Progress =
      F64.mul (F64.div (F64.ofInt 1) (F64.ofInt 3)) 100 ∧
    |(UpdateTorrents.record 1000000000 Engine.third TorrentItem.example).Progress -
        100 * ((1 : Int) : ℚ) / ((3 : Int) : ℚ)| ≤
      |100 * ((1 : Int) : ℚ) / ((3 : Int) : ℚ)| * (5 / 2 ^ 53) ∧
    ((0 : Int) ≤ 1 → (1 : Int) ≤ 3 →
      0 ≤ (UpdateTorrents.record 1000000000 Engine.third TorrentItem.example).Progress ∧
        (UpdateTorrents.record 1000000000 Engine.third TorrentItem.example).Progress ≤ 100) :=
  UpdateTorrents_progress_is_rounded_percentage Env.healthy 1000000000 Engine.third Model.added
    "c0ffee" TorrentItem.example Torrent.example (by decide) rfl (by decide)

/-- C8, counterexample: with `bytesCompleted = 1` and `totalLength = 3` the progress stored
by the tick is the float64 `2345624805922133 / 2 ^ 46` (33.33333333333333 when printed),
which is not the rational `100 / 3`. -/
theorem UpdateTorrents_progress_of_a_third_is_rounded :
    (Engine.third Torrent.example).BytesCompleted = 1 ∧
    (Engine.third Torrent.example).Length = 3 ∧
    (UpdateTorrents Env.healthy 1000000000 Engine.third Model.added).1.Torrents.map
      (fun e => (e.1, e.2.Progress)) = [("c0ffee", 2345624805922133 / 70368744177664)] ∧
    (2345624805922133 / 70368744177664 : ℚ) ≠ 100 * 1 / 3 := by
  refine ⟨rfl, rfl, ?_, ?_⟩
  · decide!
  · norm_num

/-! ## download speed -/

theorem speed_fst_Speed (now : Int) (b : Int) (item : TorrentItem) (st : TickState) :
    (UpdateTorrents.speed now b item st).1.Speed =
      if 0 < Duration.Seconds (Time.Sub now item.LastUpdate) ∧
          wrapInt64 (b - item.LastBytes) > 1024 then
        F64.div (F64.div (F64.div (F64.ofInt (wrapInt64 (b - item.LastBytes)))
          (Duration.Seconds (Time.Sub now item.LastUpdate))) 1024) 1024
      else item.Speed := by
  simp only [UpdateTorrents.speed]
  split_ifs <;> rfl

theorem progress_fst_sample (env : Env) (h : String) (b l : Int) (item : TorrentItem)
    (st : TickState) :
    (UpdateTorrents.progress env h b l item st).1.Speed = item.Speed ∧
    (UpdateTorrents.progress env h b l item st).1.LastUpdate = item.LastUpdate ∧
    (UpdateTorrents.progress env h b l item st).1.LastBytes = item.LastBytes := by
  simp only [UpdateTorrents.progress]
  split_ifs <;> exact ⟨rfl, rfl, rfl⟩

theorem state_fst_Speed (env : Env) (h : String) (stats : Sample) (item : TorrentItem)
    (st : TickState) :
    (UpdateTorrents.state env h stats item st).1.Speed = item.Speed := by
  simp only [UpdateTorrents.state]
  split_ifs <;> rfl

theorem upload_Speed (now : Int) (stats : Sample) (item : TorrentItem) :
    (UpdateTorrents.upload now stats item).Speed = item.Speed := by
  simp only [UpdateTorrents.upload]
  split_ifs <;> rfl

theorem body_fst_Speed (env : Env) (now : Int) (engine : Engine) (h : String)
    (item : TorrentItem) (st : TickState) :
    (UpdateTorrents.body env now engine h item st).1.Speed =
      match item.Torrent with
      | none => item.Speed
      | some t =>
        if 0 < (engine t).Length ∧ 0 < UpdateTorrents.elapsedSeconds now item ∧
            1024 < UpdateTorrents.bytesDiff (engine t) item then
          F64.div (F64.div (F64.div (F64.ofInt (UpdateTorrents.bytesDiff (engine t) item))
            (UpdateTorrents.elapsedSeconds now item)) 1024) 1024
        else item.Speed := by
  unfold UpdateTorrents.body
  cases hT : item.Torrent with
  | none => rfl
  | some t =>
    simp only [upload_Speed, state_fst_Speed, UpdateTorrents.elapsedSeconds,
      UpdateTorrents.bytesDiff]
    by_cases hl : (engine t).Length > 0
    · obtain ⟨p1, p2, p3⟩ := progress_fst_sample env h (engine t).BytesCompleted
        (engine t).Length (UpdateTorrents.metrics (engine t) item) st
      simp only [hl, if_true, speed_fst_Speed, p1, p2, p3, true_and]
      rfl
    · have hl' : ¬ 0 < (engine t).Length := hl
      simp only [hl, hl', if_false, false_and]
      rfl

theorem record_Speed (now : Int) (engine : Engine) (item : TorrentItem) :
    (UpdateTorrents.record now engine item).Speed =
      match item.Torrent with
      | none => item.Speed
      | some t =>
        if 0 < (engine t).Length ∧ 0 < UpdateTorrents.elapsedSeconds now item ∧
            1024 < UpdateTorrents.bytesDiff (engine t) item then
          F64.div (F64.div (F64.div (F64.ofInt (UpdateTorrents.bytesDiff (engine t) item))
            (UpdateTorrents.elapsedSeconds now item)) 1024) 1024
        else item.Speed := by
  unfold UpdateTorrents.record
  exact body_fst_Speed _ _ _ _ _ _

theorem elapsedSeconds_pos_iff (now : Int) (item : TorrentItem) :
    0 < UpdateTorrents.elapsedSeconds now item ↔ item.LastUpdate < now := by
  unfold UpdateTorrents.elapsedSeconds
  rw [Duration.Seconds_pos_iff, Time.Sub_pos_iff]

/-- C12: the download speed is resampled exactly under the noise-floor guard.  For a session
of the registry with a live engine handle, with `bytesDiff` the `int64` difference
`bytesCompleted - LastBytes` (the plain difference whenever it fits 64 bits) and
`elapsedSeconds` the seconds from `LastUpdate` to the tick (positive exactly when `LastUpdate`
is before the tick): if `totalLength > 0`, the elapsed time is positive and `bytesDiff > 1024`,
then after the tick `Speed` is `bytesDiff / elapsedSeconds / 1024 / 1024` as computed in
float64, within a relative error of `5 / 2 ^ 53` of that quotient; and if the elapsed time is
not positive, or `bytesDiff ≤ 1024`, or `totalLength ≤ 0`, the tick leaves `Speed` as it was.
A session without a handle is skipped and keeps its `Speed`. -/
theorem UpdateTorrents_speed_is_resampled_under_the_guard (env : Env) (now : Int)
    (engine : Engine) (m : Model) (k : String) (item : TorrentItem)
    (hmem : (k, item) ∈ m.Torrents) :
    (k, UpdateTorrents.record now engine item) ∈ (UpdateTorrents env now engine m).1.Torrents ∧
    (0 < UpdateTorrents.elapsedSeconds now item ↔ item.LastUpdate < now) ∧
    (item.Torrent = none → (UpdateTorrents.record now engine item).Speed = item.Speed) ∧
    ∀ t, item.Torrent = some t →
      (-(2 : Int) ^ 63 ≤ (engine t).BytesCompleted - item.LastBytes →
        (engine t).BytesCompleted - item.LastBytes < (2 : Int) ^ 63 →
        UpdateTorrents.bytesDiff (engine t) item =
          (engine t).BytesCompleted - item.LastBytes) ∧
      (0 < (engine t).Length → item.LastUpdate < now →
        1024 < UpdateTorrents.bytesDiff (engine t) item →
        (UpdateTorrents.record now engine item).Speed =
          F64.div (F64.div (F64.div (F64.ofInt (UpdateTorrents.bytesDiff (engine t) item))
            (UpdateTorrents.elapsedSeconds now item)) 1024) 1024 ∧
        |(UpdateTorrents.record now engine item).Speed -
            (UpdateTorrents.bytesDiff (engine t) item : ℚ) /
              UpdateTorrents.elapsedSeconds now item / 1024 / 1024| ≤
          |(UpdateTorrents.bytesDiff (engine t) item : ℚ) /
              UpdateTorrents.elapsedSeconds now item / 1024 / 1024| * (5 / 2 ^ 53)) ∧
      ((now ≤ item.LastUpdate ∨ UpdateTorrents.bytesDiff (engine t) item ≤ 1024 ∨
          (engine t).Length ≤ 0) →
        (UpdateTorrents.record now engine item).Speed = item.Speed) := by
  refine ⟨?_, elapsedSeconds_pos_iff now item, ?_, ?_⟩
  · rw [UpdateTorrents_Torrents]
    exact List.mem_map_of_mem (fun e => (e.1, UpdateTorrents.record now engine e.2)) hmem
  · intro hn
    rw [record_Speed, hn]
  · intro t ht
    refine ⟨?_, ?_, ?_⟩
    · intro h1 h2
      exact wrapInt64_of_fits _ (by simpa using h1) h2
    · intro hl hlt hd
      have hs : (UpdateTorrents.record now engine item).Speed =
          F64.div (F64.div (F64.div (F64.ofInt (UpdateTorrents.bytesDiff (engine t) item))
            (UpdateTorrents.elapsedSeconds now item)) 1024) 1024 := by
        rw [record_Speed, ht]
        simp only [hl, (elapsedSeconds_pos_iff now item).2 hlt, hd, and_self, if_true]
      exact ⟨hs, by rw [hs]; exact F64.speed_error _ _⟩
    · intro hc
      rw [record_Speed, ht]
      have : ¬ (0 < (engine t).Length ∧ 0 < UpdateTorrents.elapsedSeconds now item ∧
          1024 < UpdateTorrents.bytesDiff (engine t) item) := by
        rw [elapsedSeconds_pos_iff]
        rintro ⟨a, b, c⟩
        rcases hc with hc | hc | hc <;> omega
      simp only [this, if_false]

/-- C12 on a session that received 1500 bytes in the second since its last sample. -/
theorem UpdateTorrents_speed_is_resampled_under_the_guard_witness :
    (("c0ffee", UpdateTorrents.record 1000000000 Engine.downloading TorrentItem.example) ∈
      (UpdateTorrents Env.healthy 1000000000 Engine.downloading Model.added).1.Torrents) ∧
    UpdateTorrents.bytesDiff (Engine.downloading Torrent.example) TorrentItem.example = 1500 ∧
    UpdateTorrents.elapsedSeconds 1000000000 TorrentItem.example = 1 ∧
    (UpdateTorrents.record 1000000000 Engine.downloading TorrentItem.example).Speed =
      F64.div (F64.div (F64.div (F64.ofInt (UpdateTorrents.bytesDiff
        (Engine.downloading Torrent.example) TorrentItem.example))
        (UpdateTorrents.elapsedSeconds 1000000000 TorrentItem.example)) 1024) 1024 ∧
    (UpdateTorrents.record 1000000000 Engine.downloading TorrentItem.example).Speed =
      375 / 262144 :=
  have h := UpdateTorrents_speed_is_resampled_under_the_guard Env.healthy 1000000000
    Engine.downloading Model.added "c0ffee" TorrentItem.example (by decide)
  ⟨h.1, by decide!, by decide!,
    ((h.2.2.2 Torrent.example rfl).2.1 (by decide) (by decide) (by decide!)).1, by decide!⟩

/-! ## upload speed -/

theorem Time.Sub_self (now : Int) : Time.Sub now now = 0 := by
  simp [Time.Sub]

theorem Duration.Seconds_zero : Duration.Seconds 0 = 0 := by
  simp [Duration.Seconds, F64.add, F64.div, F64.ofInt, F64.round_zero]

theorem upload_UploadSpeed (now : Int) (stats : Sample) (item : TorrentItem) :
    (UpdateTorrents.upload now stats item).UploadSpeed = item.UploadSpeed := by
  simp only [UpdateTorrents.upload, Time.Sub_self, Duration.Seconds_zero, lt_irrefl, if_false]

theorem progress_fst_UploadSpeed (env : Env) (h : String) (b l : Int) (item : TorrentItem)
    (st : TickState) :
    (UpdateTorrents.progress env h b l item st).1.UploadSpeed = item.UploadSpeed := by
  simp only [UpdateTorrents.progress]
  split_ifs <;> rfl

theorem speed_fst_UploadSpeed (now : Int) (b : Int) (item : TorrentItem) (st : TickState) :
    (UpdateTorrents.speed now b item st).1.UploadSpeed = item.UploadSpeed := by
  simp only [UpdateTorrents.speed]
  split_ifs <;> rfl

theorem state_fst_UploadSpeed (env : Env) (h : String) (stats : Sample) (item : TorrentItem)
    (st : TickState) :
    (UpdateTorrents.state env h stats item st).1.UploadSpeed = item.UploadSpeed := by
  simp only [UpdateTorrents.state]
  split_ifs <;> rfl

theorem body_fst_UploadSpeed (env : Env) (now : Int) (engine : Engine) (h : String)
    (item : TorrentItem) (st : TickState) :
    (UpdateTorrents.body env now engine h item st).1.UploadSpeed = item.UploadSpeed := by
  unfold UpdateTorrents.body
  cases hT : item.Torrent with
  | none => rfl
  | some t =>
    simp only [upload_UploadSpeed, state_fst_UploadSpeed]
    split_ifs
    · rw [speed_fst_UploadSpeed, progress_fst_UploadSpeed]; rfl
    · rfl

theorem record_UploadSpeed (now : Int) (engine : Engine) (item : TorrentItem) :
    (UpdateTorrents.record now engine item).UploadSpeed = item.UploadSpeed := by
  unfold UpdateTorrents.record
  exact body_fst_UploadSpeed _ _ _ _ _ _

theorem upload_LastUpdate (now : Int) (stats : Sample) (item : TorrentItem) :
    (UpdateTorrents.upload now stats item).LastUpdate = now := by
  simp only [UpdateTorrents.upload]
  split_ifs <;> rfl

/-- C13: `UpdateTorrents` never changes the upload speed of a record, for every registry,
store behaviour and engine.  The upload sample measures the time elapsed since the
`LastUpdate` that the tick has just set to its own timestamp, which is 0 seconds, so the
guard `timeDiff > 0` fails and `UploadSpeed` keeps its value. -/
theorem UpdateTorrents_never_changes_UploadSpeed (env : Env) (now : Int) (engine : Engine)
    (m : Model) :
    (UpdateTorrents env now engine m).1.Torrents.map (fun e => (e.1, e.2.UploadSpeed)) =
      m.Torrents.map (fun e => (e.1, e.2.UploadSpeed)) ∧
    (∀ (stats : Sample) (item : TorrentItem),
      Duration.Seconds (Time.Sub now
        ({ item with LastBytes := stats.BytesCompleted, LastUpdate := now } :
          TorrentItem).LastUpdate) = 0 ∧
      (UpdateTorrents.upload now stats item).UploadSpeed = item.UploadSpeed) := by
  refine ⟨?_, fun stats item => ⟨?_, upload_UploadSpeed now stats item⟩⟩
  · rw [UpdateTorrents_Torrents, List.map_map]
    apply List.map_congr_left
    intro e _
    simp only [Function.comp, record_UploadSpeed]
  · simp only [Time.Sub_self, Duration.Seconds_zero]

/-! ## adding a session -/

theorem Registry.get_set (r : List (String × TorrentItem)) (k : String) (v : TorrentItem) :
    Registry.get (Registry.set r k v) k = some v := by
  induction r with
  | nil => simp [Registry.set, Registry.get]
  | cons e r ih =>
    unfold Registry.set
    split_ifs with h
    · simp [Registry.get]
    · have : (e.1 == k) = false := by simpa using h
      simp only [Registry.get, List.find?_cons, this] at ih ⊢
      exact ih

theorem historyOf_of_rowsOf_nil (db : DB) (k : String) (h : db.rowsOf k = []) :
    db.historyOf k = [] := by
  unfold DB.historyOf
  rw [List.filter_eq_nil_iff]
  intro r _ hr
  rw [List.any_eq_true] at hr
  obtain ⟨t, ht, hc⟩ := hr
  simp only [Bool.and_eq_true, beq_iff_eq] at hc
  have : t ∈ db.rowsOf k := List.mem_filter.2 ⟨ht, by simp [hc.1]⟩
  rw [h] at this
  exact absurd this (List.not_mem_nil _)

theorem AddTorrent_accepts (env : Env) (hacc : env.accepts) (client : Client) (now : Int)
    (magnetURI : String) (m : Model) (t : Torrent)
    (hadd : client.AddMagnet magnetURI = Except.ok t) :
    AddTorrent env client now magnetURI m =
      ({ m with
          Torrents := Registry.set m.Torrents t.InfoHash
            ⟨0, "Fetching metadata...", 0, 0, "fetching_metadata", some t, magnetURI, now, 0, 0,
              0, 0, 0, 0⟩
          DB :=
            { db := savedDB t.InfoHash
                ⟨0, "Fetching metadata...", 0, 0, "fetching_metadata", some t, magnetURI, now,
                  0, 0, 0, 0, 0, 0⟩ (env.clock m.DB.calls) m.DB.db
              calls := m.DB.calls + 1
              slept := m.DB.slept
              results := m.DB.results ++ [none] } },
        some ⟨t, t.InfoHash⟩) := by
  simp only [AddTorrent, hadd, save_accepts env hacc]

theorem onGotInfo_accepts (env : Env) (hacc : env.accepts) (w : Watcher) (m : Model)
    (item : TorrentItem) (hget : Registry.get m.Torrents w.infoHash = some item) :
    Watcher.onGotInfo env w m =
      { m with
        Torrents := Registry.set m.Torrents w.infoHash
          { item with Name := w.t.Name, State := "downloading" }
        DB :=
          { db := savedDB w.infoHash { item with Name := w.t.Name, State := "downloading" }
              (env.clock m.DB.calls) m.DB.db
            calls := m.DB.calls + 1
            slept := m.DB.slept
            results := m.DB.results ++ [none] }
        started := m.started ++ [w.infoHash] } := by
  simp only [Watcher.onGotInfo, hget, save_accepts env hacc]

/-- C10, amended: with the store accepting writes, and starting from a store that satisfies
its schema and has no row for the info hash, `AddTorrent` with a locator the engine accepts
starts a watcher and leaves exactly one `torrents` row for that info hash, with state
"fetching_metadata" and progress 0, and exactly one `torrent_history` row for it, with status
"fetching_metadata" and progress 0.  A later metadata-ready event, handled in any model in
which the session is still in the registry and has its one `torrents` row, sets the state of
the record to "downloading", leaves that same single `torrents` row with state "downloading",
and appends exactly one `torrent_history` row for the session, with status "downloading" and
the progress of the record. -/
theorem AddTorrent_then_metadata_ready (env : Env) (hacc : env.accepts) (client : Client) (now : Int)
    (magnetURI : String) (m : Model) (t : Torrent)
    (hadd : client.AddMagnet magnetURI = Except.ok t) (hwf : m.DB.db.WF)
    (hnone : m.DB.db.rowsOf t.InfoHash = []) :
    (AddTorrent env client now magnetURI m).2 = some ⟨t, t.InfoHash⟩ ∧
    (AddTorrent env client now magnetURI m).1.DB.db.WF ∧
    ((Registry.get (AddTorrent env client now magnetURI m).1.Torrents t.InfoHash).map
      (fun it => it.State) = some "fetching_metadata") ∧
    (∃ row, (AddTorrent env client now magnetURI m).1.DB.db.rowsOf t.InfoHash = [row] ∧
      row.state = "fetching_metadata" ∧ row.progress = 0) ∧
    (∃ hrow, (AddTorrent env client now magnetURI m).1.DB.db.historyOf t.InfoHash = [hrow] ∧
      hrow.status = "fetching_metadata" ∧ hrow.progress = 0) ∧
    ∀ (m1 : Model) (item : TorrentItem) (old : TorrentRow), m1.DB.db.WF →
      Registry.get m1.Torrents t.InfoHash = some item →
      m1.DB.db.rowsOf t.InfoHash = [old] →
      ((Registry.get (Watcher.onGotInfo env ⟨t, t.InfoHash⟩ m1).Torrents t.InfoHash).map
        (fun it => it.State) = some "downloading") ∧
      (∃ row, (Watcher.onGotInfo env ⟨t, t.InfoHash⟩ m1).DB.db.rowsOf t.InfoHash = [row] ∧
        row.state = "downloading" ∧ row.id = old.id) ∧
      (∃ hrow, (Watcher.onGotInfo env ⟨t, t.InfoHash⟩ m1).DB.db.historyOf t.InfoHash =
          m1.DB.db.historyOf t.InfoHash ++ [hrow] ∧
        hrow.status = "downloading" ∧ hrow.progress = item.Progress) := by
  rw [AddTorrent_accepts env hacc client now magnetURI m t hadd]
  obtain ⟨row, hrow, h1, -, -, h4, h5, -, h7, h8, -⟩ := savedDB_spec t.InfoHash
    ⟨0, "Fetching metadata...", 0, 0, "fetching_metadata", some t, magnetURI, now, 0, 0, 0, 0,
      0, 0⟩ (env.clock m.DB.calls) m.DB.db hwf
  refine ⟨rfl, savedDB_WF _ _ _ _ hwf, ?_, ⟨row, h1, h8, h7⟩, ⟨hrow, ?_, ?_, ?_⟩, ?_⟩
  · simp only [Registry.get_set, Option.map_some']
  · rw [h4, historyOf_of_rowsOf_nil _ _ hnone, List.nil_append]
  · rw [h5]
  · rw [h5]
  · intro m1 item old hwf1 hget hold
    rw [onGotInfo_accepts env hacc ⟨t, t.InfoHash⟩ m1 item hget]
    obtain ⟨row, hrow, h1, -, -, h4, h5, -, h7, h8, -, -, h9⟩ := savedDB_spec t.InfoHash
      { item with Name := t.Name, State := "downloading" } (env.clock m1.DB.calls) m1.DB.db hwf1
    refine ⟨?_, ⟨row, h1, h8, (h9 old hold).1⟩, ⟨hrow, h4, ?_, ?_⟩⟩
    · simp only [Registry.get_set, Option.map_some']
    · rw [h5]
    · rw [h5]

/-- C10, amended, on the empty model: `AddTorrent`, then the metadata-ready event in the
model that `AddTorrent` leaves. -/
theorem AddTorrent_then_metadata_ready_witness :
    (AddTorrent Env.healthy Client.example 0 "magnet:?xt=urn:btih:c0ffee" Model.empty).2 =
      some ⟨Torrent.example, Torrent.example.InfoHash⟩ ∧
    (∃ row, (AddTorrent Env.healthy Client.example 0 "magnet:?xt=urn:btih:c0ffee"
        Model.empty).1.DB.db.rowsOf Torrent.example.InfoHash = [row] ∧
      row.state = "fetching_metadata" ∧ row.progress = 0) ∧
    (∃ hrow, (AddTorrent Env.healthy Client.example 0 "magnet:?xt=urn:btih:c0ffee"
        Model.empty).1.DB.db.historyOf Torrent.example.InfoHash = [hrow] ∧
      hrow.status = "fetching_metadata" ∧ hrow.progress = 0) ∧
    ((Registry.get (Watcher.onGotInfo Env.healthy ⟨Torrent.example, Torrent.example.InfoHash⟩
        Model.added).Torrents Torrent.example.InfoHash).map (fun it => it.State) =
      some "downloading") ∧
    (∃ row, (Watcher.onGotInfo Env.healthy ⟨Torrent.example, Torrent.example.InfoHash⟩
        Model.added).DB.db.rowsOf Torrent.example.InfoHash = [row] ∧
      row.state = "downloading" ∧ row.id = 1) ∧
    (∃ hrow, (Watcher.onGotInfo Env.healthy ⟨Torrent.example, Torrent.example.InfoHash⟩
        Model.added).DB.db.historyOf Torrent.example.InfoHash =
        Model.added.DB.db.historyOf Torrent.example.InfoHash ++ [hrow] ∧
      hrow.status = "downloading" ∧ hrow.progress = TorrentItem.example.Progress) :=
  have h := AddTorrent_then_metadata_ready Env.healthy (fun _ => rfl) Client.example 0
    "magnet:?xt=urn:btih:c0ffee" Model.empty Torrent.example rfl DB.empty_WF (by decide)
  ⟨h.1, h.2.2.2.1, h.2.2.2.2.1,
    h.2.2.2.2.2 Model.added TorrentItem.example
      ⟨1, "c0ffee", "magnet:?xt=urn:btih:c0ffee", "Fetching metadata...", 0, "fetching_metadata",
        1000, 1000⟩ Model.added_WF (by decide) (by decide)⟩

/-- C10, counterexample: when every attempt of the save meets a locked store, `AddTorrent`
with a locator the engine accepts leaves no `torrents` row and no `torrent_history` row; it
records the error in `Err` and starts no watcher. -/
theorem AddTorrent_leaves_no_row_when_store_is_locked :
    Model.empty.DB.db.rowsOf "c0ffee" = [] ∧
    Client.example.AddMagnet "magnet:?xt=urn:btih:c0ffee" = Except.ok Torrent.example ∧
    Torrent.example.InfoHash = "c0ffee" ∧
    (AddTorrent Env.alwaysLocked Client.example 0 "magnet:?xt=urn:btih:c0ffee"
      Model.empty).1.DB.db.rowsOf "c0ffee" = [] ∧
    (AddTorrent Env.alwaysLocked Client.example 0 "magnet:?xt=urn:btih:c0ffee"
      Model.empty).1.DB.db.torrent_history = [] ∧
    (AddTorrent Env.alwaysLocked Client.example 0 "magnet:?xt=urn:btih:c0ffee"
      Model.empty).1.Err = some "database is locked after 3 retries" ∧
    (AddTorrent Env.alwaysLocked Client.example 0 "magnet:?xt=urn:btih:c0ffee"
      Model.empty).2 = none := by
  refine ⟨rfl, rfl, rfl, ?_, ?_, ?_, ?_⟩ <;> decide!

theorem Model.added_eq :
    (AddTorrent Env.healthy Client.example 0 "magnet:?xt=urn:btih:c0ffee" Model.empty).1 =
      Model.added := by
  decide!

/-! ## metadata timeout -/

theorem Registry.get_delete_self (r : List (String × TorrentItem)) (k : String) :
    Registry.get (Registry.delete r k) k = none := by
  unfold Registry.get Registry.delete
  rw [Option.map_eq_none', List.find?_eq_none]
  intro e he
  have := (List.mem_filter.1 he).2
  simpa using this

theorem Registry.get_delete_ne (r : List (String × TorrentItem)) (k k' : String)
    (h : k' ≠ k) : Registry.get (Registry.delete r k) k' = Registry.get r k' := by
  unfold Registry.get Registry.delete
  congr 1
  induction r with
  | nil => rfl
  | cons e r ih =>
    by_cases hk : e.1 = k
    · have h1 : (e.1 != k) = false := by simp [hk]
      have h2 : (e.1 == k') = false := by simp [hk, Ne.symm h]
      simp only [List.filter_cons, h1, Bool.false_eq_true, if_false, List.find?_cons, h2, ih]
    · have h1 : (e.1 != k) = true := by simp [hk]
      simp only [List.filter_cons, h1, if_true, List.find?_cons, ih]

theorem AddTorrent_watcher (env : Env) (client : Client) (now : Int) (magnetURI : String)
    (m : Model) (w : Watcher) (h : (AddTorrent env client now magnetURI m).2 = some w) :
    ∃ t item, client.AddMagnet magnetURI = Except.ok t ∧ w = ⟨t, t.InfoHash⟩ ∧
      item.Torrent = some t ∧ item.State = "fetching_metadata" ∧
      Registry.get (AddTorrent env client now magnetURI m).1.Torrents w.infoHash = some item := by
  unfold AddTorrent at h ⊢
  cases hadd : client.AddMagnet magnetURI with
  | error err => rw [hadd] at h; simp at h
  | ok t =>
    rw [hadd] at h
    simp only at h ⊢
    rcases hS : SaveTorrentState env t.InfoHash
      ⟨0, "Fetching metadata...", 0, 0, "fetching_metadata", some t, magnetURI, now, 0, 0, 0, 0,
        0, 0⟩ m.DB with ⟨_ | err, s⟩
    · rw [hS] at h
      simp only [Option.some.injEq] at h
      subst h
      exact ⟨t, ⟨0, "Fetching metadata...", 0, 0, "fetching_metadata", some t, magnetURI, now,
        0, 0, 0, 0, 0, 0⟩, rfl, rfl, rfl, rfl, by simp only [Registry.get_set]⟩
    · rw [hS] at h; simp at h

theorem AddTorrentFromFile_watcher (env : Env) (client : Client) (now : Int)
    (torrentPath : String) (m : Model) (w : Watcher)
    (h : (AddTorrentFromFile env client now torrentPath m).2 = some w) :
    ∃ t item, (∃ uri, client.AddTorrentFromFile torrentPath = Except.ok (t, Except.ok uri)) ∧
      w = ⟨t, t.InfoHash⟩ ∧ item.Torrent = some t ∧ item.State = "connecting" ∧
      Registry.get (AddTorrentFromFile env client now torrentPath m).1.Torrents w.infoHash =
        some item := by
  unfold AddTorrentFromFile at h ⊢
  cases hadd : client.AddTorrentFromFile torrentPath with
  | error err => rw [hadd] at h; simp at h
  | ok p =>
    obtain ⟨t, mu⟩ := p
    cases mu with
    | error err => rw [hadd] at h; simp at h
    | ok uri =>
      rw [hadd] at h
      simp only at h ⊢
      rcases hS : SaveTorrentState env t.InfoHash
        ⟨0, filepathBase torrentPath, 0, 0, "connecting", some t, uri, now, 0, 0, 0, 0,
          0, 0⟩ m.DB with ⟨_ | err, s⟩
      · rw [hS] at h
        simp only [Option.some.injEq] at h
        subst h
        exact ⟨t, ⟨0, filepathBase torrentPath, 0, 0, "connecting", some t, uri, now, 0, 0, 0,
          0, 0, 0⟩, ⟨uri, rfl⟩, rfl, rfl, rfl, by simp only [Registry.get_set]⟩
      · rw [hS] at h; simp at h

/-- When the engine accepts the locator and the initial save returns nil, `AddTorrent`
registers the record, keeps the store the save left and starts the watcher. -/
theorem AddTorrent_save_ok (env : Env) (client : Client) (now : Int) (magnetURI : String)
    (m : Model) (t : Torrent) (s : Store) (hadd : client.AddMagnet magnetURI = Except.ok t)
    (hS : SaveTorrentState env t.InfoHash (AddTorrent.record now magnetURI t) m.DB =
      (none, s)) :
    AddTorrent env client now magnetURI m =
      ({ m with
          Torrents := Registry.set m.Torrents t.InfoHash (AddTorrent.record now magnetURI t)
          DB := s }, some ⟨t, t.InfoHash⟩) := by
  unfold AddTorrent.record at hS ⊢
  simp only [AddTorrent, hadd, hS]

/-- When the engine accepts the locator and the initial save returns an error, `AddTorrent`
registers the record, sets `Err` to that error and returns before starting a watcher. -/
theorem AddTorrent_save_err (env : Env) (client : Client) (now : Int) (magnetURI : String)
    (m : Model) (t : Torrent) (s : Store) (err : String)
    (hadd : client.AddMagnet magnetURI = Except.ok t)
    (hS : SaveTorrentState env t.InfoHash (AddTorrent.record now magnetURI t) m.DB =
      (some err, s)) :
    AddTorrent env client now magnetURI m =
      ({ m with
          Torrents := Registry.set m.Torrents t.InfoHash (AddTorrent.record now magnetURI t)
          DB := s
          Err := some err }, none) := by
  unfold AddTorrent.record at hS ⊢
  simp only [AddTorrent, hadd, hS]

/-- When the engine accepts the file, the magnet link is generated and the initial save
returns nil, `AddTorrentFromFile` registers the record and starts the watcher. -/
theorem AddTorrentFromFile_save_ok (env : Env) (client : Client) (now : Int)
    (torrentPath uri : String) (m : Model) (t : Torrent) (s : Store)
    (hadd : client.AddTorrentFromFile torrentPath = Except.ok (t, Except.ok uri))
    (hS : SaveTorrentState env t.InfoHash (AddTorrentFromFile.record now torrentPath uri t)
      m.DB = (none, s)) :
    AddTorrentFromFile env client now torrentPath m =
      ({ m with
          Torrents := Registry.set m.Torrents t.InfoHash
            (AddTorrentFromFile.record now torrentPath uri t)
          DB := s }, some ⟨t, t.InfoHash⟩) := by
  unfold AddTorrentFromFile.record at hS ⊢
  simp only [AddTorrentFromFile, hadd, hS]

/-- When the engine accepts the file, the magnet link is generated and the initial save
returns an error, `AddTorrentFromFile` registers the record, sets `Err` to that error and
returns before starting a watcher. -/
theorem AddTorrentFromFile_save_err (env : Env) (client : Client) (now : Int)
    (torrentPath uri : String) (m : Model) (t : Torrent) (s : Store) (err : String)
    (hadd : client.AddTorrentFromFile torrentPath = Except.ok (t, Except.ok uri))
    (hS : SaveTorrentState env t.InfoHash (AddTorrentFromFile.record now torrentPath uri t)
      m.DB = (some err, s)) :
    AddTorrentFromFile env client now torrentPath m =
      ({ m with
          Torrents := Registry.set m.Torrents t.InfoHash
            (AddTorrentFromFile.record now torrentPath uri t)
          DB := s
          Err := some err }, none) := by
  unfold AddTorrentFromFile.record at hS ⊢
  simp only [AddTorrentFromFile, hadd, hS]

/-- C11, amended: for a session added by `AddTorrent` with a locator the engine accepts, or by
`AddTorrentFromFile` with a file the engine accepts and whose magnet link is generated, the
session is registered under its info hash in either case, and what follows depends on the
initial save.  If `SaveTorrentState` returns nil, a watcher for that handle and key is
started, and its timeout branch, run in any later model, removes that key from the registry,
leaves the entry under every other key as it is (the registry is the old one without that
key) and sets `Err` to "timeout waiting for torrent info".  If `SaveTorrentState` returns an
error, no watcher is started, so the session has no timeout event: it stays registered and
`Err` is the error of the save. -/
theorem timeout_evicts_the_watched_session (env : Env) (client : Client) (now : Int)
    (magnetURI torrentPath : String) (m : Model) :
    (∀ t, client.AddMagnet magnetURI = Except.ok t →
      ((SaveTorrentState env t.InfoHash (AddTorrent.record now magnetURI t) m.DB).1 = none →
        (AddTorrent env client now magnetURI m).2 = some ⟨t, t.InfoHash⟩ ∧
        Registry.get (AddTorrent env client now magnetURI m).1.Torrents t.InfoHash =
          some (AddTorrent.record now magnetURI t) ∧
        ∀ m1 : Model,
          Registry.get (Watcher.onTimeout ⟨t, t.InfoHash⟩ m1).Torrents t.InfoHash = none ∧
          (∀ k, k ≠ t.InfoHash →
            Registry.get (Watcher.onTimeout ⟨t, t.InfoHash⟩ m1).Torrents k =
              Registry.get m1.Torrents k) ∧
          (Watcher.onTimeout ⟨t, t.InfoHash⟩ m1).Torrents =
            m1.Torrents.filter (fun e => e.1 != t.InfoHash) ∧
          (Watcher.onTimeout ⟨t, t.InfoHash⟩ m1).Err =
            some "timeout waiting for torrent info") ∧
      (∀ err,
        (SaveTorrentState env t.InfoHash (AddTorrent.record now magnetURI t) m.DB).1 =
          some err →
        (AddTorrent env client now magnetURI m).2 = none ∧
        Registry.get (AddTorrent env client now magnetURI m).1.Torrents t.InfoHash =
          some (AddTorrent.record now magnetURI t) ∧
        (AddTorrent env client now magnetURI m).1.Err = some err)) ∧
    (∀ t uri, client.AddTorrentFromFile torrentPath = Except.ok (t, Except.ok uri) →
      ((SaveTorrentState env t.InfoHash (AddTorrentFromFile.record now torrentPath uri t)
          m.DB).1 = none →
        (AddTorrentFromFile env client now torrentPath m).2 = some ⟨t, t.InfoHash⟩ ∧
        Registry.get (AddTorrentFromFile env client now torrentPath m).1.Torrents t.InfoHash =
          some (AddTorrentFromFile.record now torrentPath uri t) ∧
        ∀ m1 : Model,
          Registry.get (Watcher.onTimeout ⟨t, t.InfoHash⟩ m1).Torrents t.InfoHash = none ∧
          (∀ k, k ≠ t.InfoHash →
            Registry.get (Watcher.onTimeout ⟨t, t.InfoHash⟩ m1).Torrents k =
              Registry.get m1.Torrents k) ∧
          (Watcher.onTimeout ⟨t, t.InfoHash⟩ m1).Torrents =
            m1.Torrents.filter (fun e => e.1 != t.InfoHash) ∧
          (Watcher.onTimeout ⟨t, t.InfoHash⟩ m1).Err =
            some "timeout waiting for torrent info") ∧
      (∀ err,
        (SaveTorrentState env t.InfoHash (AddTorrentFromFile.record now torrentPath uri t)
          m.DB).1 = some err →
        (AddTorrentFromFile env client now torrentPath m).2 = none ∧
        Registry.get (AddTorrentFromFile env client now torrentPath m).1.Torrents t.InfoHash =
          some (AddTorrentFromFile.record now torrentPath uri t) ∧
        (AddTorrentFromFile env client now torrentPath m).1.Err = some err)) := by
  have hev : ∀ (t : Torrent) (m1 : Model),
      Registry.get (Watcher.onTimeout ⟨t, t.InfoHash⟩ m1).Torrents t.InfoHash = none ∧
      (∀ k, k ≠ t.InfoHash →
        Registry.get (Watcher.onTimeout ⟨t, t.InfoHash⟩ m1).Torrents k =
          Registry.get m1.Torrents k) ∧
      (Watcher.onTimeout ⟨t, t.InfoHash⟩ m1).Torrents =
        m1.Torrents.filter (fun e => e.1 != t.InfoHash) ∧
      (Watcher.onTimeout ⟨t, t.InfoHash⟩ m1).Err = some "timeout waiting for torrent info" :=
    fun t m1 => ⟨Registry.get_delete_self _ _,
      fun k hk => Registry.get_delete_ne _ _ _ hk, rfl, rfl⟩
  refine ⟨?_, ?_⟩
  · intro t hadd
    rcases hS : SaveTorrentState env t.InfoHash (AddTorrent.record now magnetURI t) m.DB
      with ⟨_ | e, s⟩
    · rw [AddTorrent_save_ok env client now magnetURI m t s hadd hS]
      refine ⟨fun _ => ⟨rfl, by simp only [Registry.get_set], hev t⟩, ?_⟩
      intro err herr
      simp at herr
    · rw [AddTorrent_save_err env client now magnetURI m t s e hadd hS]
      refine ⟨fun hn => by simp at hn, ?_⟩
      intro err herr
      simp only [Option.some.injEq] at herr
      subst herr
      exact ⟨rfl, by simp only [Registry.get_set], rfl⟩
  · intro t uri hadd
    rcases hS : SaveTorrentState env t.InfoHash
      (AddTorrentFromFile.record now torrentPath uri t) m.DB with ⟨_ | e, s⟩
    · rw [AddTorrentFromFile_save_ok env client now torrentPath uri m t s hadd hS]
      refine ⟨fun _ => ⟨rfl, by simp only [Registry.get_set], hev t⟩, ?_⟩
      intro err herr
      simp at herr
    · rw [AddTorrentFromFile_save_err env client now torrentPath uri m t s e hadd hS]
      refine ⟨fun hn => by simp at hn, ?_⟩
      intro err herr
      simp only [Option.some.injEq] at herr
      subst herr
      exact ⟨rfl, by simp only [Registry.get_set], rfl⟩

/-- C11, amended, on the sessions that `AddTorrent` and `AddTorrentFromFile` add to the empty
model over a store that accepts writes: each starts the watcher of "c0ffee", and the timeout
of that watcher removes the key and sets the timeout error. -/
theorem timeout_evicts_the_watched_session_witness :
    ((AddTorrent Env.healthy Client.example 0 "magnet:?xt=urn:btih:c0ffee" Model.empty).2 =
      some ⟨Torrent.example, Torrent.example.InfoHash⟩ ∧
    Registry.get (AddTorrent Env.healthy Client.example 0 "magnet:?xt=urn:btih:c0ffee"
        Model.empty).1.Torrents Torrent.example.InfoHash =
      some (AddTorrent.record 0 "magnet:?xt=urn:btih:c0ffee" Torrent.example) ∧
    Registry.get (Watcher.onTimeout ⟨Torrent.example, Torrent.example.InfoHash⟩
      Model.added).Torrents Torrent.example.InfoHash = none ∧
    (Watcher.onTimeout ⟨Torrent.example, Torrent.example.InfoHash⟩ Model.added).Err =
      some "timeout waiting for torrent info") ∧
    ((AddTorrentFromFile Env.healthy Client.example 0 "downloads/debian.torrent"
        Model.empty).2 = some ⟨Torrent.example, Torrent.example.InfoHash⟩ ∧
    Registry.get (AddTorrentFromFile Env.healthy Client.example 0 "downloads/debian.torrent"
        Model.empty).1.Torrents Torrent.example.InfoHash =
      some (AddTorrentFromFile.record 0 "downloads/debian.torrent"
        "magnet:?xt=urn:btih:c0ffee" Torrent.example) ∧
    Registry.get (Watcher.onTimeout ⟨Torrent.example, Torrent.example.InfoHash⟩
      (AddTorrentFromFile Env.healthy Client.example 0 "downloads/debian.torrent"
        Model.empty).1).Torrents Torrent.example.InfoHash = none ∧
    (Watcher.onTimeout ⟨Torrent.example, Torrent.example.InfoHash⟩
      (AddTorrentFromFile Env.healthy Client.example 0 "downloads/debian.torrent"
        Model.empty).1).Err = some "timeout waiting for torrent info") :=
  have h := timeout_evicts_the_watched_session Env.healthy Client.example 0
    "magnet:?xt=urn:btih:c0ffee" "downloads/debian.torrent" Model.empty
  have hA := (h.1 Torrent.example rfl).1 (by decide!)
  have hB := (h.2 Torrent.example "magnet:?xt=urn:btih:c0ffee" rfl).1 (by decide!)
  ⟨⟨hA.1, hA.2.1, (hA.2.2 Model.added).1, (hA.2.2 Model.added).2.2.2⟩,
    ⟨hB.1, hB.2.1, (hB.2.2 _).1, (hB.2.2 _).2.2.2⟩⟩

/-- C11, counterexample: over a store that is locked at every commit, `AddTorrent` with a
locator the engine accepts registers the session "c0ffee" and returns with the error of the
save before any watcher is started.  The engine never signals metadata-ready, yet no timeout
event exists for the session: it is still in the registry after a later tick, and `Err` is
"database is locked after 3 retries", not the timeout error.  The same holds of
`AddTorrentFromFile`. -/
theorem session_with_failed_save_is_never_evicted :
    Client.example.AddMagnet "magnet:?xt=urn:btih:c0ffee" = Except.ok Torrent.example ∧
    (AddTorrent Env.alwaysLocked Client.example 0 "magnet:?xt=urn:btih:c0ffee"
      Model.empty).2 = none ∧
    Registry.get (AddTorrent Env.alwaysLocked Client.example 0 "magnet:?xt=urn:btih:c0ffee"
      Model.empty).1.Torrents "c0ffee" = some TorrentItem.example ∧
    (AddTorrent Env.alwaysLocked Client.example 0 "magnet:?xt=urn:btih:c0ffee"
      Model.empty).1.Err = some "database is locked after 3 retries" ∧
    (Registry.get (UpdateTorrents Env.healthy 60000000000 Engine.noPeers
      (AddTorrent Env.alwaysLocked Client.example 0 "magnet:?xt=urn:btih:c0ffee"
        Model.empty).1).1.Torrents "c0ffee").map (fun it => it.State) = some "searching" ∧
    Client.example.AddTorrentFromFile "downloads/debian.torrent" =
      Except.ok (Torrent.example, Except.ok "magnet:?xt=urn:btih:c0ffee") ∧
    (AddTorrentFromFile Env.alwaysLocked Client.example 0 "downloads/debian.torrent"
      Model.empty).2 = none ∧
    (Registry.get (AddTorrentFromFile Env.alwaysLocked Client.example 0
      "downloads/debian.torrent" Model.empty).1.Torrents "c0ffee").map
        (fun it => (it.Name, it.State)) = some ("debian.torrent", "connecting") ∧
    (AddTorrentFromFile Env.alwaysLocked Client.example 0 "downloads/debian.torrent"
      Model.empty).1.Err = some "database is locked after 3 retries" := by
  refine ⟨rfl, ?_, ?_, ?_, ?_, rfl, ?_, ?_, ?_⟩ <;> decide!

end RapidTorrent
